import Mathlib

/-!
Verification development for the statistics worker of the benchexec
react-table (`stats.worker.js`).

The worker is embedded shallowly:

* JavaScript numbers are idealized as exact rationals extended with the
  IEEE special values `NaN`, `Infinity` and `-Infinity`.  Binary floating
  point rounding is not modelled; `Math.sqrt` of a rational that is not a
  perfect square is kept symbolically (constructor `sqrtv`), such values
  are only ever turned into text, never used arithmetically.
* JavaScript values flowing through the worker are either strings or
  numbers (`JSVal`).  The implicit coercions used by the worker
  (`Number(x)`, `isNaN`, `+`, `-`, `/`, `Math.pow(_, 2)`, `.toString()`,
  `.toFixed(n)`) are modelled explicitly.
* The `Number(string)` coercion is modelled for the decimal grammar
  (optional sign, digits, fraction, exponent, `Infinity`); whitespace
  trimming and hex/octal/binary literals are not modelled.
* `Number.prototype.toString` is modelled exactly for rationals with a
  terminating decimal expansion; for other rationals (which the claims
  never turn into text) a fraction marker is produced instead of the
  shortest-roundtrip float form.
-/

namespace StatsWorker

/-- JavaScript numbers: NaN, the two infinities, exact rationals, and
`sqrtv q` for `Math.sqrt q` when `q` is a positive rational that is not a
perfect square (such a value is only ever stringified). -/
inductive JNum where
  | nan
  | inf
  | ninf
  | r (q : ℚ)
  | sqrtv (q : ℚ)
deriving DecidableEq

/-- A JavaScript value in the worker: a string or a number. -/
inductive JSVal where
  | s (str : String)
  | n (num : JNum)
deriving DecidableEq

/-! Rational arithmetic is routed through `mkRat`/`divInt` so that every
definition evaluates inside `decide` (the library's `Rat.add`, `Rat.mul`,
`Rat.sub`, `Rat.inv` are irreducible); the bridge lemmas identify these
with the ordinary operations. -/

def qadd (a b : ℚ) : ℚ := mkRat (a.num * b.den + b.num * a.den) (a.den * b.den)

theorem qadd_eq (a b : ℚ) : qadd a b = a + b := (Rat.add_def' a b).symm

def qmul (a b : ℚ) : ℚ := mkRat (a.num * b.num) (a.den * b.den)

theorem qmul_eq (a b : ℚ) : qmul a b = a * b := by
  rw [Rat.mul_def, Rat.normalize_eq_mkRat]
  rfl

def qdiv (a b : ℚ) : ℚ := Rat.divInt (a.num * b.den) ((a.den : ℤ) * b.num)

theorem qdiv_eq (a b : ℚ) : qdiv a b = a / b := by
  rw [Rat.div_def, Rat.inv_def]
  by_cases hb : b.num = 0
  · simp [qdiv, hb]
  · have h1 : (a.den : ℤ) ≠ 0 := Int.natCast_ne_zero.mpr a.den_nz
    conv_rhs => rw [← Rat.divInt_self a]
    rw [Rat.divInt_mul_divInt _ _ h1 hb]
    rfl

def qabs (a : ℚ) : ℚ := if a < 0 then -a else a

theorem qabs_eq (a : ℚ) : qabs a = |a| := by
  unfold qabs
  by_cases h : a < 0
  · rw [if_pos h, abs_of_neg h]
  · rw [if_neg h, abs_of_nonneg (not_lt.mp h)]

/-- Reducible `(10 : ℚ) ^ k` for a natural exponent. -/
def qpow10n (k : ℕ) : ℚ := mkRat (10 ^ k) 1

/-- Reducible `(10 : ℚ) ^ e` for an integer exponent. -/
def qpow10 (e : ℤ) : ℚ :=
  if 0 ≤ e then mkRat (10 ^ e.toNat) 1 else mkRat 1 (10 ^ (-e).toNat)

/-- Value of one decimal digit character. -/
def digVal (c : Char) : Option ℕ :=
  if c.isDigit then some (c.toNat - 48) else none

def digitsToNatAux : List Char → ℕ → Option ℕ
  | [], acc => some acc
  | c :: cs, acc =>
    match digVal c with
    | some d => digitsToNatAux cs (acc * 10 + d)
    | none => none

/-- A nonempty all-digit sequence, as a natural number. -/
def digitsToNat : List Char → Option ℕ
  | [] => none
  | c :: cs => digitsToNatAux (c :: cs) 0

/-- Split a character list at the first occurrence of `c`. -/
def splitOnChar (c : Char) : List Char → List Char × Option (List Char)
  | [] => ([], none)
  | x :: xs =>
    if x = c then ([], some xs)
    else
      let p := splitOnChar c xs
      (x :: p.1, p.2)

/-- Mantissa of a decimal literal: `digits`, `digits.`, `digits.digits` or
`.digits`. -/
def parseMantissa (l : List Char) : Option ℚ :=
  let p := splitOnChar '.' l
  match p.2 with
  | none => (digitsToNat p.1).map (fun n => mkRat n 1)
  | some fp =>
    match p.1, fp with
    | [], [] => none
    | [], _ => (digitsToNat fp).map (fun f => mkRat f (10 ^ fp.length))
    | _, [] => (digitsToNat p.1).map (fun n => mkRat n 1)
    | _, _ =>
      match digitsToNat p.1, digitsToNat fp with
      | some n, some f => some (mkRat ((n : ℤ) * 10 ^ fp.length + (f : ℤ)) (10 ^ fp.length))
      | _, _ => none

/-- Exponent part of a decimal literal (after `e`/`E`). -/
def parseExp (l : List Char) : Option ℤ :=
  match l with
  | '+' :: rest => (digitsToNat rest).map (fun n => (n : ℤ))
  | '-' :: rest => (digitsToNat rest).map (fun n => -(n : ℤ))
  | rest => (digitsToNat rest).map (fun n => (n : ℤ))

/-- Split a literal into mantissa and optional exponent part. -/
def splitExp (l : List Char) : List Char × Option (List Char) :=
  match splitOnChar 'e' l with
  | (a, some b) => (a, some b)
  | _ => splitOnChar 'E' l

/-- An unsigned numeric literal: `Infinity` or mantissa with optional
exponent. -/
def parsePos (l : List Char) : Option JNum :=
  if l = "Infinity".toList then some JNum.inf
  else
    let p := splitExp l
    match parseMantissa p.1, p.2 with
    | some q, none => some (JNum.r q)
    | some q, some ec =>
      match parseExp ec with
      | some e => some (JNum.r (qmul q (qpow10 e)))
      | none => none
    | none, _ => none

/-- Model of the JavaScript `Number(string)` coercion (decimal grammar;
the empty string coerces to `0`, anything unparsable to `NaN`). -/
def parseNum (str : String) : JNum :=
  match str.toList with
  | [] => JNum.r 0
  | '+' :: rest => (parsePos rest).getD JNum.nan
  | '-' :: rest =>
    match parsePos rest with
    | some JNum.inf => JNum.ninf
    | some (JNum.r q) => JNum.r (-q)
    | _ => JNum.nan
  | l => (parsePos l).getD JNum.nan

/-- The JavaScript `Number(x)` coercion on a worker value. -/
def toNum : JSVal → JNum
  | JSVal.n x => x
  | JSVal.s str => parseNum str

def remFactorAux (p : ℕ) : ℕ → ℕ → ℕ × ℕ
  | 0, n => (0, n)
  | fuel + 1, n =>
    if 1 < p ∧ 1 ≤ n ∧ n % p = 0 then
      let q := remFactorAux p fuel (n / p)
      (q.1 + 1, q.2)
    else (0, n)

/-- Multiplicity of the prime `p` in `n`, and the remaining cofactor
(fuel-based so that it evaluates definitionally). -/
def remFactor (p n : ℕ) : ℕ × ℕ := remFactorAux p n n

/-- Decimal text of a rational with terminating expansion; other rationals
(never stringified by any claim) are shown as a fraction marker. -/
def ratToDecimalString (q : ℚ) : String :=
  if q = 0 then "0"
  else
    let sign := if q < 0 then "-" else ""
    let qa := qabs q
    let den := qa.den
    let p2 := remFactor 2 den
    let p5 := remFactor 5 p2.2
    if p5.2 = 1 then
      let k := max p2.1 p5.1
      let mn := (qmul qa (qpow10n k)).num.toNat
      if k = 0 then sign ++ toString mn
      else
        let ds := toString mn
        let ds := if ds.length ≤ k then
            String.mk (List.replicate (k + 1 - ds.length) '0') ++ ds
          else ds
        sign ++ ds.take (ds.length - k) ++ "." ++ ds.drop (ds.length - k)
    else sign ++ "(" ++ toString qa.num ++ "/" ++ toString qa.den ++ ")"

/-- Model of `Number.prototype.toString` (for `sqrtv` see the header). -/
def jnumToString : JNum → String
  | JNum.nan => "NaN"
  | JNum.inf => "Infinity"
  | JNum.ninf => "-Infinity"
  | JNum.r q => ratToDecimalString q
  | JNum.sqrtv q => "sqrt(" ++ ratToDecimalString q ++ ")"

/-- The JavaScript `x.toString()` on a worker value. -/
def jsToString : JSVal → String
  | JSVal.s str => str
  | JSVal.n x => jnumToString x

/-- JavaScript number addition. -/
def jadd : JNum → JNum → JNum
  | JNum.nan, _ => JNum.nan
  | _, JNum.nan => JNum.nan
  | JNum.sqrtv _, _ => JNum.nan
  | _, JNum.sqrtv _ => JNum.nan
  | JNum.inf, JNum.ninf => JNum.nan
  | JNum.ninf, JNum.inf => JNum.nan
  | JNum.inf, _ => JNum.inf
  | _, JNum.inf => JNum.inf
  | JNum.ninf, _ => JNum.ninf
  | _, JNum.ninf => JNum.ninf
  | JNum.r a, JNum.r b => JNum.r (qadd a b)

/-- JavaScript number negation. -/
def jneg : JNum → JNum
  | JNum.nan => JNum.nan
  | JNum.inf => JNum.ninf
  | JNum.ninf => JNum.inf
  | JNum.r q => JNum.r (-q)
  | JNum.sqrtv _ => JNum.nan

/-- JavaScript number subtraction. -/
def jsub (a b : JNum) : JNum := jadd a (jneg b)

/-- JavaScript `Math.pow(x, 2)`. -/
def jsq : JNum → JNum
  | JNum.nan => JNum.nan
  | JNum.inf => JNum.inf
  | JNum.ninf => JNum.inf
  | JNum.r q => JNum.r (qmul q q)
  | JNum.sqrtv _ => JNum.nan

/-- JavaScript number division (division by `0` follows IEEE: `x/0` is a
signed infinity for `x ≠ 0` and `NaN` for `x = 0`). -/
def jdiv : JNum → JNum → JNum
  | JNum.nan, _ => JNum.nan
  | _, JNum.nan => JNum.nan
  | JNum.sqrtv _, _ => JNum.nan
  | _, JNum.sqrtv _ => JNum.nan
  | JNum.inf, JNum.inf => JNum.nan
  | JNum.inf, JNum.ninf => JNum.nan
  | JNum.ninf, JNum.inf => JNum.nan
  | JNum.ninf, JNum.ninf => JNum.nan
  | JNum.inf, JNum.r q => if q < 0 then JNum.ninf else JNum.inf
  | JNum.ninf, JNum.r q => if q < 0 then JNum.inf else JNum.ninf
  | JNum.r _, JNum.inf => JNum.r 0
  | JNum.r _, JNum.ninf => JNum.r 0
  | JNum.r a, JNum.r b =>
    if b = 0 then (if a = 0 then JNum.nan else if a < 0 then JNum.ninf else JNum.inf)
    else JNum.r (qdiv a b)

def natSqrtAux (n : ℕ) : ℕ → ℕ → ℕ
  | 0, acc => acc
  | fuel + 1, acc =>
    if (acc + 1) * (acc + 1) ≤ n then natSqrtAux n fuel (acc + 1) else acc

/-- Integer square root, fuel-based so that it evaluates definitionally. -/
def natSqrt (n : ℕ) : ℕ := natSqrtAux n n 0

/-- Exact square root of a rational, when it exists. -/
def ratSqrt? (q : ℚ) : Option ℚ :=
  let sn := natSqrt q.num.toNat
  let sd := natSqrt q.den
  if sn * sn = q.num.toNat ∧ sd * sd = q.den then some (mkRat sn sd)
  else none

/-- JavaScript `Math.sqrt`. -/
def jsqrt : JNum → JNum
  | JNum.nan => JNum.nan
  | JNum.inf => JNum.inf
  | JNum.ninf => JNum.nan
  | JNum.sqrtv _ => JNum.nan
  | JNum.r q =>
    if q < 0 then JNum.nan
    else
      match ratSqrt? q with
      | some s => JNum.r s
      | none => JNum.sqrtv q

/-- JavaScript `<` on numbers (`false` whenever `NaN` is involved). -/
def jlt : JNum → JNum → Bool
  | JNum.nan, _ => false
  | _, JNum.nan => false
  | JNum.sqrtv _, _ => false
  | _, JNum.sqrtv _ => false
  | JNum.ninf, JNum.ninf => false
  | JNum.ninf, _ => true
  | _, JNum.ninf => false
  | JNum.inf, _ => false
  | JNum.r _, JNum.inf => true
  | JNum.r a, JNum.r b => decide (a < b)

/-- JavaScript `>` on numbers. -/
def jgt (a b : JNum) : Bool := jlt b a

/-- JavaScript `Number.isInteger`. -/
def jIsInteger : JNum → Bool
  | JNum.r q => decide (q.den = 1)
  | _ => false

/-- Truthiness of a JavaScript number (`0` and `NaN` are falsy). -/
def jTruthy : JNum → Bool
  | JNum.nan => false
  | JNum.r q => decide (q ≠ 0)
  | _ => true

/-- The JavaScript `+` operator on worker values: string concatenation as
soon as one operand is a string, numeric addition otherwise. -/
def jsPlus : JSVal → JSVal → JSVal
  | JSVal.s a, b => JSVal.s (a ++ jsToString b)
  | JSVal.n a, JSVal.s b => JSVal.s (jnumToString a ++ b)
  | JSVal.n a, JSVal.n b => JSVal.n (jadd a b)

/-- Model of `Number(x.toFixed f)`: rounding to `f` decimal places, ties toward the
larger value; the special values print their sentinel and read back
unchanged. -/
def jToFixedNum (x : JNum) (f : ℕ) : JNum :=
  match x with
  | JNum.r q =>
    let m := qmul q (qpow10n f)
    JNum.r (mkRat ((2 * m.num + (m.den : ℤ)).fdiv (2 * (m.den : ℤ))) (10 ^ f))
  | other => other

/-- A normalized row (the worker accesses exactly these fields). -/
structure Row where
  categoryType : String
  resultType : String
  columnType : String
  columnTitle : String
  column : String
deriving DecidableEq

/-- A raw input row as submitted to the worker; `column = none` models a
missing (`undefined`/`null`) value field, an entry that is `none` models a
missing entry of the input collection. -/
structure RawRow where
  categoryType : String
  resultType : String
  columnType : String
  columnTitle : String
  column : Option String
deriving DecidableEq

def dummyRow : Row := ⟨"", "", "", "", ""⟩

/-- Model of `str.endsWith suffix` (via character lists). -/
def strEndsWith (s suffix : String) : Bool :=
  suffix.toList.isSuffixOf s.toList

def listReplaceFirst (pat rep : List Char) : List Char → List Char
  | [] => []
  | x :: xs =>
    if pat.isPrefixOf (x :: xs) then rep ++ (x :: xs).drop pat.length
    else x :: listReplaceFirst pat rep xs

/-- JavaScript `str.replace(pat, rep)` with a string pattern: replaces the
first occurrence only. -/
def strReplaceFirst (s pat rep : String) : String :=
  String.mk (listReplaceFirst pat.toList rep.toList s.toList)

/-- From stats.worker.js: `safeAdd`, the decimal-precision-aware addition.
`a.toString()` / `b.toString()` act on the original operands. -/
def safeAdd (a b : JSVal) : JSVal :=
  let aNum := toNum a
  let bNum := toNum b
  if jIsInteger aNum || jIsInteger bNum then JSVal.n (jadd aNum bNum)
  else
    let aString := jsToString a
    let aLength : ℤ := aString.length
    let aDecimalPoint : ℤ :=
      match aString.toList.findIdx? (fun c => c = '.') with
      | some i => (i : ℤ)
      | none => -1
    let bString := jsToString b
    let bLength : ℤ := bString.length
    let bDecimalPoint : ℤ :=
      match bString.toList.findIdx? (fun c => c = '.') with
      | some i => (i : ℤ)
      | none => -1
    let length := (max (aLength - aDecimalPoint) (bLength - bDecimalPoint) - 1).toNat
    JSVal.n (jToFixedNum (jadd aNum bNum) length)

/-- From stats.worker.js: `mathStringMax` (compare numerically, return the
original representation). -/
def mathStringMax (a b : JSVal) : JSVal :=
  if jgt (toNum a) (toNum b) then a else b

/-- From stats.worker.js: `mathStringMin`. -/
def mathStringMin (a b : JSVal) : JSVal :=
  if jlt (toNum a) (toNum b) then a else b

/-- From stats.worker.js: `maybeAdd` (`if (Number(b))` is a truthiness
test, so `0`- and `NaN`-coercing values fall through). -/
def maybeAdd (a b : JSVal) (type : String) : JSVal :=
  if jTruthy (toNum b) then safeAdd a b
  else if type = "status" then jsPlus a (JSVal.n (JNum.r 1))
  else a

/-- A bucket accumulator object.  `variance` and `items` are `Option`s
because the worker deletes these properties before posting the result and
the `nanObj` replacement drops `items`; `title` is `Option` because the
`total` accumulator starts without it. -/
structure Buck where
  sum : JSVal
  avg : JSVal
  max : JSVal
  median : JSVal
  min : JSVal
  stdev : JSVal
  variance : Option JSVal
  title : Option String
  items : Option (List Row)
deriving DecidableEq

/-- From stats.worker.js: the `defaultObj` template. -/
def defaultObj : Buck :=
  { sum := JSVal.n (JNum.r 0), avg := JSVal.n (JNum.r 0), max := JSVal.s "-Infinity",
    median := JSVal.n (JNum.r 0), min := JSVal.s "Infinity", stdev := JSVal.n (JNum.r 0),
    variance := some (JSVal.n (JNum.r 0)), title := none, items := none }

/-- The object `{ ...nanObj, title }`: every numeric field of the template replaced by
the `"NaN"` sentinel, plus the current row's title; no `items` property. -/
def nanBuck (t : String) : Buck :=
  { sum := JSVal.s "NaN", avg := JSVal.s "NaN", max := JSVal.s "NaN",
    median := JSVal.s "NaN", min := JSVal.s "NaN", stdev := JSVal.s "NaN",
    variance := some (JSVal.s "NaN"), title := some t, items := none }

/-- The spread `{ ...x, ...nanObj }`: spread of `nanObj` over an existing object
(keeps `title` and `items`). -/
def applyNanObj (b : Buck) : Buck :=
  { b with
    sum := JSVal.s "NaN", avg := JSVal.s "NaN", max := JSVal.s "NaN",
    median := JSVal.s "NaN", min := JSVal.s "NaN", stdev := JSVal.s "NaN",
    variance := some (JSVal.s "NaN") }

/-- The `buckets` object, as an insertion-ordered association list. -/
def alGet : List (String × Buck) → String → Option Buck
  | [], _ => none
  | p :: rest, k => if p.1 = k then some p.2 else alGet rest k

def alSet : List (String × Buck) → String → Buck → List (String × Buck)
  | [], k, v => [(k, v)]
  | p :: rest, k, v => if p.1 = k then (k, v) :: rest else p :: alSet rest k v

/-- The `bucketNaNInfo` registry: the set of keys with `hasNaN: true`. -/
def keyMem : List String → String → Bool
  | [], _ => false
  | x :: xs, k => if x = k then true else keyMem xs k

def addKey (l : List String) (k : String) : List String :=
  if keyMem l k then l else l ++ [k]

/-- From stats.worker.js: `shouldSkipBucket`. -/
def shouldSkipBucket (bucketMeta : List String) (key : String) : Bool :=
  keyMem bucketMeta key

/-- From stats.worker.js: `calculateMean` (mutates `values.avg`). -/
def calculateMean (values : Buck) (allItems : List Row) : Buck :=
  let numMin := toNum values.min
  let numMax := toNum values.max
  if numMin = JNum.ninf ∧ numMax = JNum.inf then { values with avg := JSVal.s "NaN" }
  else if numMin = JNum.ninf then { values with avg := JSVal.s "-Infinity" }
  else if numMax = JNum.inf then { values with avg := JSVal.s "Infinity" }
  else { values with avg := JSVal.n (jdiv (toNum values.sum) (JNum.r (mkRat allItems.length 1))) }

/-- From stats.worker.js: `calculateMedian` (mutates `values.median`).
An out-of-range index reads `undefined`, which `Number` coerces to `NaN`;
the odd branch stores the raw `column` of the middle item. -/
def calculateMedian (values : Buck) (allItems : List Row) : Buck :=
  if allItems.length % 2 = 0 then
    let idx := allItems.length / 2
    let a := match allItems.get? (idx - 1) with
      | some it => toNum (JSVal.s it.column)
      | none => JNum.nan
    let b := match allItems.get? idx with
      | some it => toNum (JSVal.s it.column)
      | none => JNum.nan
    { values with median := JSVal.n (jdiv (jadd a b) (JNum.r 2)) }
  else
    match allItems.get? (allItems.length / 2) with
    | some it => { values with median := JSVal.s it.column }
    | none => values

/-- From stats.worker.js: `calculateStdev`. -/
def calculateStdev (hasNegInf hasPosInf : Bool) (variance : JSVal) (size : ℕ) : JSVal :=
  if hasNegInf && hasPosInf then JSVal.s "NaN"
  else if hasNegInf || hasPosInf then JSVal.n JNum.inf
  else JSVal.n (jsqrt (jdiv (toNum variance) (JNum.r (mkRat size 1))))

/-- From stats.worker.js: the per-item body of `parsePythonInfinityValues`
(the in-place `item.column` assignment becomes a functional update). -/
def parseItem (item : Row) : Row :=
  if item.columnType = "status" || !(strEndsWith item.column "Inf") then item
  else { item with column := strReplaceFirst item.column "Inf" "Infinity" }

def parsePythonInfinityValues (data : List Row) : List Row :=
  data.map parseItem

/-- The filter `(i) => i && i.column !== undefined && i.column !== null`
on the spread copy of the input. -/
def normalizeFilter (data : List (Option RawRow)) : List Row :=
  data.filterMap (fun o =>
    match o with
    | none => none
    | some rw =>
      match rw.column with
      | none => none
      | some c => some ⟨rw.categoryType, rw.resultType, rw.columnType, rw.columnTitle, c⟩)

/-- Rows visible to the caller after the request returns: `[...data]`
copies the array but shares the row objects, so the in-place `item.column`
assignment of `parsePythonInfinityValues` is observable through the
caller's references; entries dropped by the filter are untouched. -/
def callerRowsAfter (data : List (Option RawRow)) : List (Option RawRow) :=
  data.map (fun o =>
    match o with
    | none => none
    | some rw =>
      match rw.column with
      | none => some rw
      | some c =>
        if rw.columnType = "status" || !(strEndsWith c "Inf") then some rw
        else some { rw with column := some (strReplaceFirst c "Inf" "Infinity") })

/-- The comparator `(a, b) => a.column - b.column`, folded through the
ECMAScript `SortCompare` rule that a `NaN` comparator value counts as `0`:
`sortLe a b` says `a` need not be put after `b`. -/
def sortLe (a b : Row) : Bool :=
  !(jgt (jsub (toNum (JSVal.s a.column)) (toNum (JSVal.s b.column))) (JNum.r 0))

def insertRow (x : Row) : List Row → List Row
  | [] => [x]
  | y :: ys => if sortLe x y then x :: y :: ys else y :: insertRow x ys

/-- Model of `copy.sort(...)`: modelled as a stable insertion sort over `sortLe`. -/
def sortRows : List Row → List Row
  | [] => []
  | x :: xs => insertRow x (sortRows xs)

/-- Bucket key of a row. -/
def bucketKey (item : Row) : String := item.categoryType ++ "-" ++ item.resultType

/-- Category-total key of a row. -/
def totalKeyOf (item : Row) : String := item.categoryType ++ "-total"

/-- State threaded through the first pass. -/
structure St where
  buckets : List (String × Buck)
  nanKeys : List String
  total : Buck
deriving DecidableEq

/-- One round of the pass-1 per-bucket mutations (sum, then min/max, then
the `items` push), each guarded exactly as in the source. -/
def updRound (b : Buck) (column : JSVal) (type : String) (item : Row) (skip : Bool) : Buck :=
  let b := if skip then b else { b with sum := maybeAdd b.sum column type }
  let b := if skip = false ∧ ¬ (toNum column = JNum.nan) then
      { b with max := mathStringMax b.max column, min := mathStringMin b.min column }
    else b
  let b := if skip then b else { b with items := some (b.items.getD [] ++ [item]) }
  b

/-- The body of the pass-1 `for (const item of copy)` loop.  When
`bucketKey item = totalKeyOf item` and the key is already present, the two
object lookups alias the same object, so both mutation rounds hit it; the
mutations of a round touch pairwise distinct fields, so the aliased case
is exactly the composition of the two rounds. -/
def processItem (totalHasNaN : Bool) (st : St) (item : Row) : St :=
  let key := bucketKey item
  let totalKey := totalKeyOf item
  let type := item.columnType
  let column := JSVal.s item.column
  let title := item.columnTitle
  let total1 :=
    match st.total.title with
    | none => { st.total with title := some title }
    | some t => if t = "" then { st.total with title := some title } else st.total
  let itemIsNaN := type ≠ "status" ∧ toNum column = JNum.nan
  if itemIsNaN then
    { buckets := alSet (alSet st.buckets key (nanBuck title)) totalKey (nanBuck title),
      nanKeys := addKey (addKey st.nanKeys key) totalKey,
      total := total1 }
  else
    let skipBucket := shouldSkipBucket st.nanKeys key
    let skipSubTotal := shouldSkipBucket st.nanKeys totalKey
    let total2 := if totalHasNaN then total1
      else { total1 with sum := maybeAdd total1.sum column type }
    if key = totalKey ∧ (alGet st.buckets key).isSome then
      let b0 := (alGet st.buckets key).getD defaultObj
      let b2 := updRound (updRound b0 column type item skipBucket) column type item skipSubTotal
      { buckets := alSet st.buckets key b2, nanKeys := st.nanKeys, total := total2 }
    else
      let bucket := (alGet st.buckets key).getD
        { defaultObj with title := some title, items := some [] }
      let subTotalBucket := (alGet st.buckets totalKey).getD
        { defaultObj with title := some title, items := some [] }
      { buckets := alSet (alSet st.buckets key (updRound bucket column type item skipBucket))
          totalKey (updRound subTotalBucket column type item skipSubTotal),
        nanKeys := st.nanKeys,
        total := total2 }

/-- The mean/median pass over `Object.entries(buckets)`. -/
def meanMedianBuck (nanKeys : List String) (kv : String × Buck) : String × Buck :=
  if shouldSkipBucket nanKeys kv.1 then kv
  else
    let values := kv.2
    let values := calculateMean values (values.items.getD [])
    let values := calculateMedian values (values.items.getD [])
    (kv.1, values)

/-- One step of the second (variance) pass.  For an aliased key
(`bucketKey = totalKeyOf`) both `+=` increments hit the same object; both
diffs are computed before the increments, as in the source. -/
def variancePassStep (p : List (String × Buck) × Buck) (item : Row) :
    List (String × Buck) × Buck :=
  let column := JSVal.s item.column
  if toNum column = JNum.nan then p
  else
    let numCol := toNum column
    let key := bucketKey item
    let totalKey := totalKeyOf item
    let bucket := (alGet p.1 key).getD defaultObj
    let subTotalBucket := (alGet p.1 totalKey).getD defaultObj
    let diffBucket := jsub numCol (toNum bucket.avg)
    let diffSubTotal := jsub numCol (toNum subTotalBucket.avg)
    let diffTotal := jsub numCol (toNum p.2.avg)
    let total := { p.2 with
      variance :=
        some (jsPlus (p.2.variance.getD (JSVal.n (JNum.r 0))) (JSVal.n (jsq diffTotal))) }
    if key = totalKey then
      let b1 := { bucket with
        variance :=
          some (jsPlus (bucket.variance.getD (JSVal.n (JNum.r 0))) (JSVal.n (jsq diffBucket))) }
      let b2 := { b1 with
        variance :=
          some (jsPlus (b1.variance.getD (JSVal.n (JNum.r 0))) (JSVal.n (jsq diffSubTotal))) }
      (alSet p.1 key b2, total)
    else
      let b1 := { bucket with
        variance :=
          some (jsPlus (bucket.variance.getD (JSVal.n (JNum.r 0))) (JSVal.n (jsq diffBucket))) }
      let s1 := { subTotalBucket with
        variance :=
          some (jsPlus (subTotalBucket.variance.getD (JSVal.n (JNum.r 0)))
            (JSVal.n (jsq diffSubTotal))) }
      (alSet (alSet p.1 key b1) totalKey s1, total)

/-- The stringification `values[key] = val.toString()` over the scalar fields of a bucket
(`title` stringifies to itself; the `items` array is stringified only on
objects that delete it right after, or that never had it, so that
intermediate string is unobservable and `items` is left as is here). -/
def stringifyAll (b : Buck) : Buck :=
  { sum := JSVal.s (jsToString b.sum), avg := JSVal.s (jsToString b.avg),
    max := JSVal.s (jsToString b.max), median := JSVal.s (jsToString b.median),
    min := JSVal.s (jsToString b.min), stdev := JSVal.s (jsToString b.stdev),
    variance := b.variance.map (fun v => JSVal.s (jsToString v)),
    title := b.title, items := b.items }

/-- The final per-bucket pass: poisoned buckets are stringified as they
are (no `delete`), the others get their stdev, are stringified, and lose
`items` and `variance`. -/
def serializeBuck (nanKeys : List String) (total : Buck) (kv : String × Buck) :
    String × Buck :=
  if shouldSkipBucket nanKeys kv.1 then (kv.1, stringifyAll kv.2)
  else
    let values := kv.2
    let valuesHaveNegInf := decide (toNum values.min = JNum.ninf)
    let valuesHavePosInf := decide (toNum total.max = JNum.inf)
    let values := { values with
      stdev :=
        calculateStdev valuesHaveNegInf valuesHavePosInf
          (values.variance.getD (JSVal.n (JNum.r 0))) (values.items.getD []).length }
    let values := stringifyAll values
    (kv.1, { values with items := none, variance := none })

/-- The aggregate part of a response: `{ columnType, total, ...buckets }`
(bucket keys always contain a dash, so they never collide with the two
fixed fields). -/
structure AggResult where
  columnType : String
  total : Buck
  buckets : List (String × Buck)
deriving DecidableEq

/-- A response's `result`: either the aggregate object or the "no data"
object `{ total: undefined }` (no bucket keys). -/
inductive ResultVal where
  | noData
  | full (r : AggResult)
deriving DecidableEq

/-- The response message `{ result, transaction }`. -/
structure Response where
  result : ResultVal
  transaction : String
deriving DecidableEq

/-- The filtered, infinity-normalized copy, in input order. -/
def normalizedRows (data : List (Option RawRow)) : List Row :=
  parsePythonInfinityValues (normalizeFilter data)

/-- The sorted copy. -/
def sortedRows (data : List (Option RawRow)) : List Row :=
  sortRows (normalizedRows data)

/-- The flag `totalNaNInfo.hasNaN`. -/
def totalHasNaNOf (data : List (Option RawRow)) : Bool :=
  (sortedRows data).any (fun item =>
    decide (item.columnType ≠ "status" ∧ toNum (JSVal.s item.column) = JNum.nan))

/-- The `total` accumulator before the first pass (`max`/`min` from the
ends of the sorted copy). -/
def initTotal (data : List (Option RawRow)) : Buck :=
  { defaultObj with
    items := some ([] : List Row),
    max := JSVal.s ((sortedRows data).getLastD dummyRow).column,
    min := JSVal.s ((sortedRows data).headD dummyRow).column }

/-- State after the first (bucketing) pass. -/
def pass1St (data : List (Option RawRow)) : St :=
  (sortedRows data).foldl (processItem (totalHasNaNOf data))
    ⟨[], [], initTotal data⟩

/-- Buckets after the mean/median pass. -/
def bucketsMM (data : List (Option RawRow)) : List (String × Buck) :=
  (pass1St data).buckets.map (meanMedianBuck (pass1St data).nanKeys)

/-- The `total` accumulator after the mean/median stage. -/
def totalMM (data : List (Option RawRow)) : Buck :=
  if totalHasNaNOf data then applyNanObj (pass1St data).total
  else calculateMedian (calculateMean (pass1St data).total (sortedRows data))
    (sortedRows data)

/-- Buckets and total after the second (variance) pass. -/
def pass2 (data : List (Option RawRow)) : List (String × Buck) × Buck :=
  (sortedRows data).foldl variancePassStep (bucketsMM data, totalMM data)

/-- The `total` accumulator with its stdev. -/
def totalStdev (data : List (Option RawRow)) : Buck :=
  let total := (pass2 data).2
  { total with
    stdev :=
      calculateStdev (decide (toNum total.min = JNum.ninf))
        (decide (toNum total.max = JNum.inf))
        (total.variance.getD (JSVal.n (JNum.r 0))) (sortedRows data).length }

/-- The serialized buckets of the response. -/
def bucketsOut (data : List (Option RawRow)) : List (String × Buck) :=
  (pass2 data).1.map (serializeBuck (pass1St data).nanKeys (totalStdev data))

/-- The serialized `total` of the response. -/
def totalOut (data : List (Option RawRow)) : Buck :=
  { stringifyAll (totalStdev data) with items := none, variance := none }

/-- The whole `onmessage` computation producing the `result` object. -/
def processData (data : List (Option RawRow)) : ResultVal :=
  if normalizedRows data = [] then ResultVal.noData
  else ResultVal.full
    { columnType := ((normalizedRows data).headD dummyRow).columnType,
      total := totalOut data,
      buckets := bucketsOut data }

/-- The worker boundary: one request yields exactly one response carrying
the same correlation token. -/
def onmessage (data : List (Option RawRow)) (transaction : String) : Response :=
  { result := processData data, transaction := transaction }

/-! ### Basic lemmas about the bucket map and the NaN registry -/

theorem alGet_alSet (m : List (String × Buck)) (k k' : String) (v : Buck) :
    alGet (alSet m k v) k' = if k = k' then some v else alGet m k' := by
  induction m with
  | nil =>
    simp only [alSet, alGet]
  | cons p rest ih =>
    simp only [alSet]
    by_cases hp : p.1 = k
    · simp only [hp, if_pos rfl, alGet]
      by_cases hk : k = k'
      · simp [hk]
      · simp [hk, hp]
    · simp only [if_neg hp, alGet, ih]
      by_cases hpk : p.1 = k'
      · have : ¬ k = k' := fun h => hp (h ▸ hpk)
        simp [hpk, this]
      · simp [hpk]

theorem keyMem_append_single (l : List String) (k k' : String) :
    keyMem (l ++ [k]) k' = (keyMem l k' || decide (k = k')) := by
  induction l with
  | nil => simp [keyMem]
  | cons x xs ih =>
    simp only [List.cons_append, keyMem]
    by_cases hx : x = k' <;> simp [hx, ih]

theorem keyMem_addKey (l : List String) (k k' : String) :
    keyMem (addKey l k) k' = (keyMem l k' || decide (k = k')) := by
  unfold addKey
  by_cases hmem : keyMem l k
  · simp only [hmem, if_pos]
    by_cases hk : k = k'
    · subst hk
      simp [hmem]
    · simp [hk]
  · simp only [hmem, Bool.false_eq_true, if_neg, not_false_iff, keyMem_append_single]

/-- The NaN registry only ever grows. -/
theorem keyMem_processItem_mono (tn : Bool) (st : St) (item : Row) (k : String)
    (h : keyMem (processItem tn st item).nanKeys k = false) :
    keyMem st.nanKeys k = false := by
  unfold processItem at h
  by_cases hnan : item.columnType ≠ "status" ∧ toNum (JSVal.s item.column) = JNum.nan
  · simp only [if_pos hnan, keyMem_addKey, Bool.or_eq_false_iff] at h
    exact h.1.1
  · simp only [if_neg hnan] at h
    split at h <;> exact h

/-- Fold preservation of a state invariant. -/
theorem foldl_preserves {σ α : Type} (P : σ → Prop) (f : σ → α → σ)
    (hstep : ∀ st a, P st → P (f st a)) :
    ∀ (l : List α) (st : σ), P st → P (l.foldl f st) := by
  intro l
  induction l with
  | nil => intro st h; exact h
  | cons x xs ih => intro st h; exact ih (f st x) (hstep st x h)

/-- Lookup through a key-preserving map over the bucket list. -/
theorem alGet_map_keyfix (f : String × Buck → String × Buck)
    (hf : ∀ p, (f p).1 = p.1) (l : List (String × Buck)) (k : String) :
    alGet (l.map f) k = (alGet l k).map (fun b => (f (k, b)).2) := by
  induction l with
  | nil => rfl
  | cons p rest ih =>
    obtain ⟨k0, b0⟩ := p
    simp only [List.map_cons, alGet, hf]
    by_cases hk : k0 = k
    · subst hk
      simp
    · simp [hk, ih]

theorem fst_meanMedianBuck (nk : List String) (p : String × Buck) :
    (meanMedianBuck nk p).1 = p.1 := by
  unfold meanMedianBuck
  split <;> rfl

theorem fst_serializeBuck (nk : List String) (t : Buck) (p : String × Buck) :
    (serializeBuck nk t p).1 = p.1 := by
  unfold serializeBuck
  split <;> rfl

/-! ### Concrete inputs used by witnesses and counterexamples -/

def mkEntry (cat res ty ti col : String) : Option RawRow :=
  some ⟨cat, res, ty, ti, some col⟩

/-- The end-to-end scenario of the spec. -/
def dE2E : List (Option RawRow) :=
  [mkEntry "A" "correct" "numeric" "cputime" "1",
   mkEntry "A" "correct" "numeric" "cputime" "3"]

/-- A poisoned bucket: a NaN row followed by a numeric row. -/
def dPois : List (Option RawRow) :=
  [mkEntry "A" "correct" "numeric" "t" "abc",
   mkEntry "A" "correct" "numeric" "t" "1"]

/-- A finite bucket next to a bucket holding an infinity. -/
def dInf : List (Option RawRow) :=
  [mkEntry "A" "correct" "numeric" "t" "1",
   mkEntry "A" "correct" "numeric" "t" "3",
   mkEntry "B" "wrong" "numeric" "t" "Inf"]

/-- Three status rows with non-numeric values. -/
def dStatus3 : List (Option RawRow) :=
  [mkEntry "A" "correct" "status" "t" "true",
   mkEntry "A" "correct" "status" "t" "false",
   mkEntry "A" "correct" "status" "t" "unknown"]

/-- A single status row with a numeric value. -/
def dStatusNum : List (Option RawRow) :=
  [mkEntry "A" "correct" "status" "t" "5"]

/-- A single status row with value `0`. -/
def dStatusZero : List (Option RawRow) :=
  [mkEntry "A" "correct" "status" "t" "0"]

/-- A single row carrying the Python infinity marker. -/
def dInfMarker : List (Option RawRow) :=
  [some ⟨"A", "correct", "numeric", "t", some "Inf"⟩]

/-- Input whose rows all normalize away. -/
def dEmpty : List (Option RawRow) :=
  [none, some ⟨"A", "correct", "numeric", "t", none⟩]

/-- Two surviving rows with different column types. -/
def dMixedTypes : List (Option RawRow) :=
  [none,
   mkEntry "A" "correct" "status" "t" "true",
   mkEntry "A" "correct" "numeric" "t" "1"]

/-- A numeric row shorthand for median scenarios. -/
def rowOf (c : String) : Row := ⟨"A", "correct", "numeric", "t", c⟩

/-! ### The poisoned-bucket invariant through the pipeline -/

/-- Identity of a skipped update round. -/
theorem updRound_skip (b : Buck) (c : JSVal) (ty : String) (it : Row) :
    updRound b c ty it true = b := rfl

/-- Pass-1 invariant: every poisoned key holds a `nanBuck`. -/
def poisonedNan (st : St) : Prop :=
  ∀ k, keyMem st.nanKeys k = true → ∃ t, alGet st.buckets k = some (nanBuck t)

theorem poisonedNan_processItem (tn : Bool) (st : St) (item : Row)
    (h : poisonedNan st) : poisonedNan (processItem tn st item) := by
  intro k hk
  unfold processItem at hk ⊢
  by_cases hnan : item.columnType ≠ "status" ∧ toNum (JSVal.s item.column) = JNum.nan
  · simp only [if_pos hnan] at hk ⊢
    simp only [keyMem_addKey, Bool.or_eq_true, decide_eq_true_eq] at hk
    rw [alGet_alSet, alGet_alSet]
    by_cases h2 : totalKeyOf item = k
    · exact ⟨item.columnTitle, by rw [if_pos h2]⟩
    · by_cases h1 : bucketKey item = k
      · exact ⟨item.columnTitle, by rw [if_neg h2, if_pos h1]⟩
      · rcases hk with (hk | hk) | hk
        · exact (by rw [if_neg h2, if_neg h1]; exact h k hk)
        · exact absurd hk h1
        · exact absurd hk h2
  · simp only [if_neg hnan] at hk ⊢
    by_cases hal : bucketKey item = totalKeyOf item ∧ (alGet st.buckets (bucketKey item)).isSome
    · simp only [if_pos hal] at hk ⊢
      rw [alGet_alSet]
      by_cases h1 : bucketKey item = k
      · subst h1
        have hskip : shouldSkipBucket st.nanKeys (bucketKey item) = true := hk
        have hskip2 : shouldSkipBucket st.nanKeys (totalKeyOf item) = true := hal.1 ▸ hskip
        obtain ⟨t, ht⟩ := h _ hk
        rw [if_pos rfl]
        refine ⟨t, ?_⟩
        rw [hskip, hskip2, updRound_skip, updRound_skip, ht, Option.getD_some]
      · rw [if_neg h1]
        exact h k hk
    · simp only [if_neg hal] at hk ⊢
      rw [alGet_alSet, alGet_alSet]
      by_cases h2 : totalKeyOf item = k
      · subst h2
        have hskip : shouldSkipBucket st.nanKeys (totalKeyOf item) = true := hk
        obtain ⟨t, ht⟩ := h _ hk
        rw [if_pos rfl, hskip, updRound_skip, ht, Option.getD_some]
        exact ⟨t, rfl⟩
      · by_cases h1 : bucketKey item = k
        · subst h1
          have hskip : shouldSkipBucket st.nanKeys (bucketKey item) = true := hk
          obtain ⟨t, ht⟩ := h _ hk
          rw [if_neg h2, if_pos rfl, hskip, updRound_skip, ht, Option.getD_some]
          exact ⟨t, rfl⟩
        · rw [if_neg h2, if_neg h1]
          exact h k hk

theorem poisonedNan_pass1 (data : List (Option RawRow)) : poisonedNan (pass1St data) := by
  unfold pass1St
  refine foldl_preserves poisonedNan _ (fun st a h => poisonedNan_processItem _ st a h)
    (sortedRows data) ⟨[], [], initTotal data⟩ ?_
  intro k hk
  exact absurd hk (by simp [keyMem])

/-- Scalar fields frozen at the NaN sentinel, no `items`, some `variance`. -/
def frozenScalar (b : Buck) : Prop :=
  b.sum = JSVal.s "NaN" ∧ b.avg = JSVal.s "NaN" ∧ b.max = JSVal.s "NaN" ∧
  b.median = JSVal.s "NaN" ∧ b.min = JSVal.s "NaN" ∧ b.stdev = JSVal.s "NaN" ∧
  b.items = none ∧ ∃ v, b.variance = some v

theorem frozenScalar_nanBuck (t : String) : frozenScalar (nanBuck t) :=
  ⟨rfl, rfl, rfl, rfl, rfl, rfl, rfl, ⟨JSVal.s "NaN", rfl⟩⟩

/-- After-mean-median and variance-pass invariant on the bucket list. -/
def poisonedFrozen (nk : List String) (bks : List (String × Buck)) : Prop :=
  ∀ k, keyMem nk k = true → ∃ b, alGet bks k = some b ∧ frozenScalar b

theorem poisonedFrozen_bucketsMM (data : List (Option RawRow)) :
    poisonedFrozen (pass1St data).nanKeys (bucketsMM data) := by
  intro k hk
  obtain ⟨t, ht⟩ := poisonedNan_pass1 data k hk
  unfold bucketsMM
  rw [alGet_map_keyfix _ (fst_meanMedianBuck _), ht]
  refine ⟨(meanMedianBuck (pass1St data).nanKeys (k, nanBuck t)).2, rfl, ?_⟩
  unfold meanMedianBuck
  rw [if_pos (show shouldSkipBucket (pass1St data).nanKeys k = true from hk)]
  exact frozenScalar_nanBuck t

/-- The variance pass only touches the `variance` field of existing
entries (and total), so frozen buckets stay frozen. -/
theorem poisonedFrozen_varianceStep (nk : List String)
    (p : List (String × Buck) × Buck) (item : Row)
    (h : poisonedFrozen nk p.1) : poisonedFrozen nk (variancePassStep p item).1 := by
  intro k hk
  obtain ⟨b, hb, hf⟩ := h k hk
  unfold variancePassStep
  by_cases hcol : toNum (JSVal.s item.column) = JNum.nan
  · rw [if_pos hcol]
    exact ⟨b, hb, hf⟩
  · rw [if_neg hcol]
    by_cases hal : bucketKey item = totalKeyOf item
    · simp only [if_pos hal]
      rw [alGet_alSet]
      by_cases h1 : bucketKey item = k
      · subst h1
        rw [if_pos rfl, hb, Option.getD_some]
        exact ⟨_, rfl, hf.1, hf.2.1, hf.2.2.1, hf.2.2.2.1, hf.2.2.2.2.1,
          hf.2.2.2.2.2.1, hf.2.2.2.2.2.2.1, ⟨_, rfl⟩⟩
      · rw [if_neg h1]
        exact ⟨b, hb, hf⟩
    · simp only [if_neg hal]
      rw [alGet_alSet, alGet_alSet]
      by_cases h2 : totalKeyOf item = k
      · subst h2
        rw [if_pos rfl, hb, Option.getD_some]
        exact ⟨_, rfl, hf.1, hf.2.1, hf.2.2.1, hf.2.2.2.1, hf.2.2.2.2.1,
          hf.2.2.2.2.2.1, hf.2.2.2.2.2.2.1, ⟨_, rfl⟩⟩
      · by_cases h1 : bucketKey item = k
        · subst h1
          rw [if_neg h2, if_pos rfl, hb, Option.getD_some]
          exact ⟨_, rfl, hf.1, hf.2.1, hf.2.2.1, hf.2.2.2.1, hf.2.2.2.2.1,
            hf.2.2.2.2.2.1, hf.2.2.2.2.2.2.1, ⟨_, rfl⟩⟩
        · rw [if_neg h2, if_neg h1]
          exact ⟨b, hb, hf⟩

theorem poisonedFrozen_pass2 (data : List (Option RawRow)) :
    poisonedFrozen (pass1St data).nanKeys (pass2 data).1 := by
  unfold pass2
  have := foldl_preserves (fun p : List (String × Buck) × Buck =>
      poisonedFrozen (pass1St data).nanKeys p.1) variancePassStep
    (fun p a h => poisonedFrozen_varianceStep _ p a h) (sortedRows data)
    (bucketsMM data, totalMM data) (poisonedFrozen_bucketsMM data)
  exact this

/-! ### Spec-side definitions (written from the spec's words, for
refinement comparisons against the code-side functions) -/

/-- Modelled from the spec: with item count `n`, if `n` is even the median
is the average of the two middle sorted values; if `n` is odd, the exact
middle sorted value. -/
def specMedian (allItems : List Row) : JSVal :=
  let n := allItems.length
  if n % 2 = 0 then
    JSVal.n (jdiv
      (jadd (toNum (JSVal.s (((allItems.get? (n / 2 - 1)).getD dummyRow).column)))
        (toNum (JSVal.s (((allItems.get? (n / 2)).getD dummyRow).column))))
      (JNum.r 2))
  else JSVal.s ((allItems.get? (n / 2)).getD dummyRow).column

/-! ### Claim C6: empty normalized input -/

/-- C6: for every request whose rows normalize to the empty collection
(entries missing or lacking a value field), the worker emits exactly one
response (the single `Response` value of `onmessage`) whose result is the
no-data object `{ total: undefined }` with no bucket keys, echoing the
request's correlation token; no aggregation stage runs. -/
theorem c6_empty_input (data : List (Option RawRow)) (t : String)
    (h : normalizedRows data = []) :
    onmessage data t = { result := ResultVal.noData, transaction := t } := by
  unfold onmessage processData
  rw [if_pos h]

theorem c6_witness :
    normalizedRows dEmpty = [] ∧
    onmessage dEmpty "tok" = { result := ResultVal.noData, transaction := "tok" } :=
  ⟨by decide, c6_empty_input dEmpty "tok" (by decide)⟩

/-! ### Claim C10: columnType of the result -/

theorem parseItem_columnType (r : Row) : (parseItem r).columnType = r.columnType := by
  unfold parseItem
  split <;> rfl

/-- C10: for every non-empty normalized input, the `columnType` field of
the emitted result equals the `columnType` of the first row surviving the
filter in original (pre-sort) input order, whatever the other rows are. -/
theorem c10_columnType (data : List (Option RawRow)) (r : Row) (rest : List Row)
    (h : normalizeFilter data = r :: rest) :
    ∃ res, processData data = ResultVal.full res ∧ res.columnType = r.columnType := by
  have hn : normalizedRows data = parseItem r :: parsePythonInfinityValues rest := by
    unfold normalizedRows parsePythonInfinityValues
    rw [h]
    rfl
  have hne : ¬ normalizedRows data = [] := by
    rw [hn]
    exact fun hc => List.noConfusion hc
  refine ⟨{
    columnType := ((normalizedRows data).headD dummyRow).columnType,
    total := totalOut data, buckets := bucketsOut data }, ?_, ?_⟩
  · unfold processData
    rw [if_neg hne]
  · rw [hn]
    exact parseItem_columnType r

theorem c10_witness :
    normalizeFilter dMixedTypes =
      [⟨"A", "correct", "status", "t", "true"⟩, ⟨"A", "correct", "numeric", "t", "1"⟩] ∧
    ∃ res, processData dMixedTypes = ResultVal.full res ∧ res.columnType = "status" := by
  refine ⟨by decide, ?_⟩
  obtain ⟨res, h1, h2⟩ := c10_columnType dMixedTypes ⟨"A", "correct", "status", "t", "true"⟩
    [⟨"A", "correct", "numeric", "t", "1"⟩] (by decide)
  exact ⟨res, h1, h2⟩

/-! ### Claim C5: mutation of the caller's rows -/

/-- C5 counterexample: processing mutates the caller's row carrying the
domain infinity marker (the spread copies the array, not the row objects,
and `parsePythonInfinityValues` assigns `item.column` in place). -/
theorem c5_counterexample : callerRowsAfter dInfMarker ≠ dInfMarker := by decide

/-- C5 (amended): the caller's array itself is preserved entrywise, and a
row is left unchanged unless it survives the filter, is not status-typed
and its value ends in `Inf`, in which case exactly its `column` field is
rewritten to the `Infinity` form in place. -/
theorem c5_mutation_frame (data : List (Option RawRow)) (i : ℕ) (rw : RawRow)
    (h : data.get? i = some (some rw)) :
    (callerRowsAfter data).length = data.length ∧
    (rw.column = none → (callerRowsAfter data).get? i = some (some rw)) ∧
    (∀ c, rw.column = some c → (rw.columnType = "status" ∨ strEndsWith c "Inf" = false) →
      (callerRowsAfter data).get? i = some (some rw)) ∧
    (∀ c, rw.column = some c → rw.columnType ≠ "status" → strEndsWith c "Inf" = true →
      (callerRowsAfter data).get? i =
        some (some { rw with column := some (strReplaceFirst c "Inf" "Infinity") })) := by
  refine ⟨?_, ?_, ?_, ?_⟩
  · unfold callerRowsAfter
    exact data.length_map _
  · intro hc
    unfold callerRowsAfter
    rw [List.get?_map, h]
    simp [hc]
  · intro c hc hcond
    unfold callerRowsAfter
    rw [List.get?_map, h]
    rcases hcond with hs | he
    · simp [hc, hs]
    · simp [hc, he]
  · intro c hc hs hinf
    unfold callerRowsAfter
    rw [List.get?_map, h]
    simp [hc, hs, hinf]

theorem c5_witness :
    dInfMarker.get? 0 = some (some ⟨"A", "correct", "numeric", "t", some "Inf"⟩) ∧
    (callerRowsAfter dInfMarker).get? 0 =
      some (some ⟨"A", "correct", "numeric", "t", some "Infinity"⟩) := by
  refine ⟨by decide, ?_⟩
  have h := (c5_mutation_frame dInfMarker 0 ⟨"A", "correct", "numeric", "t", some "Inf"⟩
    (by decide)).2.2.2 "Inf" rfl (by decide) (by decide)
  rw [h]
  decide

/-! ### Claim C2: per-bucket stdev reads the global max -/

/-- C2 (code bug evaluation): at `dInf`, bucket `A-correct` has finite
min `1` and max `3`, yet its serialized stdev is `"Infinity"`, because the
code computes `valuesHavePosInf` from `Number(total.max)` instead of the
bucket's own max; the claim expects `sqrt(2/2) = 1`. -/
theorem c2_bug_eval :
    (alGet (bucketsOut dInf) "A-correct").map
      (fun b => (jsToString b.min, jsToString b.max, jsToString b.stdev)) =
      some ("1", "3", "Infinity") := by decide

/-! ### Claim C7: median -/

/-- C7: the worker's median agrees with the spec's description on every
non-empty item list (even length: average of the two middle sorted values;
odd length: the exact middle sorted value), and concretely items
`[1,2,3,4]` give median `2.5` while `[1,2,3]` give median `2`. -/
theorem c7_median (values : Buck) (allItems : List Row) (hne : allItems ≠ []) :
    (calculateMedian values allItems).median = specMedian allItems := by
  have hpos : 0 < allItems.length := List.length_pos.mpr hne
  by_cases hpar : allItems.length % 2 = 0
  · have h2 : allItems.length / 2 < allItems.length := Nat.div_lt_self (by omega) (by omega)
    have h1 : allItems.length / 2 - 1 < allItems.length := by omega
    simp only [calculateMedian, specMedian, if_pos hpar,
      List.get?_eq_get h1, List.get?_eq_get h2, Option.getD_some]
  · have h2 : allItems.length / 2 < allItems.length := Nat.div_lt_self (by omega) (by omega)
    simp only [calculateMedian, specMedian, if_neg hpar, List.get?_eq_get h2,
      Option.getD_some]

theorem c7_witness :
    ((calculateMedian defaultObj [rowOf "1", rowOf "2", rowOf "3", rowOf "4"]).median =
      specMedian [rowOf "1", rowOf "2", rowOf "3", rowOf "4"]) ∧
    jsToString ((calculateMedian defaultObj
      [rowOf "1", rowOf "2", rowOf "3", rowOf "4"]).median) = "2.5" ∧
    jsToString ((calculateMedian defaultObj [rowOf "1", rowOf "2", rowOf "3"]).median) = "2" :=
  ⟨c7_median defaultObj [rowOf "1", rowOf "2", rowOf "3", rowOf "4"] (by decide),
   by decide, by decide⟩

/-! ### Counterexamples for C1, C3, C4, C9 -/

/-- C1 counterexample: in `dPois` the bucket `A-correct` is poisoned, yet
its `variance` field ends the request as the string `"NaNNaN"`: the second
pass appended `NaN` (by string concatenation) for the later numeric row,
so the field is neither frozen at the `"NaN"` sentinel nor untouched. -/
theorem c1_counterexample :
    keyMem (pass1St dPois).nanKeys "A-correct" = true ∧
    (alGet (bucketsOut dPois) "A-correct").map (fun b => b.variance.map jsToString) =
      some (some "NaNNaN") := by decide

/-- C3 counterexample: the poisoned bucket `A-total` of `dPois` still
carries its `variance` scratch field in the emitted result (the skip
branch of the serialization loop never deletes it). -/
theorem c3_counterexample :
    (alGet (bucketsOut dPois) "A-total").map (fun b => b.variance.isSome) =
      some true := by decide

/-- C4 counterexample: a status-typed row whose value parses as a number
(`"5"`) does update its bucket's min and max, and its "sum" adds the
magnitude 5 rather than counting 1. -/
theorem c4_counterexample :
    (alGet (bucketsOut dStatusNum) "A-correct").map
      (fun b => (jsToString b.sum, jsToString b.min, jsToString b.max)) =
      some ("5", "5", "5") := by decide

/-- String-valued check on a worker value. -/
def isStr : JSVal → Bool
  | JSVal.s _ => true
  | JSVal.n _ => false

/-- C1 (amended): once a bucket (or category-total bucket) is poisoned,
its `sum`, `avg`, `max`, `median`, `min` and `stdev` are frozen to the
`"NaN"` sentinel for the rest of the request and no later row contributes
to its sum, min, max or items (the emitted entry has no `items` at all);
the `variance` field is the exception the second pass appends to. -/
theorem c1_poisoned_frozen (data : List (Option RawRow)) (key : String)
    (h : keyMem (pass1St data).nanKeys key = true) :
    ∃ b, alGet (bucketsOut data) key = some b ∧
      b.sum = JSVal.s "NaN" ∧ b.avg = JSVal.s "NaN" ∧ b.max = JSVal.s "NaN" ∧
      b.median = JSVal.s "NaN" ∧ b.min = JSVal.s "NaN" ∧ b.stdev = JSVal.s "NaN" ∧
      b.items = none := by
  obtain ⟨b0, hb0, hf⟩ := poisonedFrozen_pass2 data key h
  unfold bucketsOut
  rw [alGet_map_keyfix _ (fst_serializeBuck _ _), hb0]
  refine ⟨_, rfl, ?_⟩
  unfold serializeBuck
  dsimp only
  rw [if_pos (show shouldSkipBucket (pass1St data).nanKeys key = true from h)]
  unfold stringifyAll
  rw [hf.1, hf.2.1, hf.2.2.1, hf.2.2.2.1, hf.2.2.2.2.1, hf.2.2.2.2.2.1,
    hf.2.2.2.2.2.2.1]
  exact ⟨rfl, rfl, rfl, rfl, rfl, rfl, rfl⟩

theorem c1_witness :
    keyMem (pass1St dPois).nanKeys "A-total" = true ∧
    ∃ b, alGet (bucketsOut dPois) "A-total" = some b ∧
      b.sum = JSVal.s "NaN" ∧ b.avg = JSVal.s "NaN" ∧ b.max = JSVal.s "NaN" ∧
      b.median = JSVal.s "NaN" ∧ b.min = JSVal.s "NaN" ∧ b.stdev = JSVal.s "NaN" ∧
      b.items = none :=
  ⟨by decide, c1_poisoned_frozen dPois "A-total" (by decide)⟩

/-- C3 (amended): every emitted bucket entry and the total carry the six
public fields as strings and no `items` list; the total and the
non-poisoned entries carry no `variance` either, but a poisoned entry
keeps a (stringified) `variance` field. -/
theorem c3_fields (data : List (Option RawRow)) :
    ((totalOut data).items = none ∧ (totalOut data).variance = none ∧
      isStr (totalOut data).sum = true ∧ isStr (totalOut data).avg = true ∧
      isStr (totalOut data).max = true ∧ isStr (totalOut data).median = true ∧
      isStr (totalOut data).min = true ∧ isStr (totalOut data).stdev = true) ∧
    ∀ key b, alGet (bucketsOut data) key = some b →
      b.items = none ∧
      isStr b.sum = true ∧ isStr b.avg = true ∧ isStr b.max = true ∧
      isStr b.median = true ∧ isStr b.min = true ∧ isStr b.stdev = true ∧
      (keyMem (pass1St data).nanKeys key = false → b.variance = none) ∧
      (keyMem (pass1St data).nanKeys key = true → ∃ v, b.variance = some (JSVal.s v)) := by
  constructor
  · exact ⟨rfl, rfl, rfl, rfl, rfl, rfl, rfl, rfl⟩
  · intro key b hb
    unfold bucketsOut at hb
    rw [alGet_map_keyfix _ (fst_serializeBuck _ _)] at hb
    cases hb0 : alGet (pass2 data).1 key with
    | none => rw [hb0] at hb; exact absurd hb (by simp)
    | some b0 =>
      rw [hb0] at hb
      simp only [Option.map_some', Option.some.injEq] at hb
      subst hb
      unfold serializeBuck
      dsimp only
      by_cases hp : shouldSkipBucket (pass1St data).nanKeys key = true
      · rw [if_pos hp]
        obtain ⟨b1, hb1, hf⟩ := poisonedFrozen_pass2 data key hp
        rw [hb0] at hb1
        have hb1' : b0 = b1 := Option.some.inj hb1
        subst hb1'
        obtain ⟨v, hv⟩ := hf.2.2.2.2.2.2.2
        unfold stringifyAll
        rw [hf.2.2.2.2.2.2.1, hv]
        refine ⟨rfl, rfl, rfl, rfl, rfl, rfl, rfl, ?_, ?_⟩
        · intro hc
          have hp' : keyMem (pass1St data).nanKeys key = true := hp
          rw [hc] at hp'
          exact Bool.noConfusion hp'
        · intro _
          exact ⟨jsToString v, rfl⟩
      · rw [if_neg hp]
        refine ⟨rfl, rfl, rfl, rfl, rfl, rfl, rfl, fun _ => rfl, ?_⟩
        intro hc
        exact absurd hc hp

theorem c3_witness :
    ((totalOut dPois).items = none ∧ (totalOut dPois).variance = none) ∧
    ((alGet (bucketsOut dPois) "A-correct").getD defaultObj).items = none := by
  have h := (c3_fields dPois).2 "A-correct"
    ((alGet (bucketsOut dPois) "A-correct").getD defaultObj) (by decide)
  exact ⟨⟨(c3_fields dPois).1.1, (c3_fields dPois).1.2.1⟩, h.1⟩

/-- C9 counterexample: a bucket whose single row carries the integer value
`0` (a status row) is not poisoned, yet its sum is `1`, not the exact
mathematical sum `0`: `Number("0")` is falsy, so `maybeAdd` takes the
status increment branch. -/
theorem c9_counterexample :
    toNum (JSVal.s "0") = JNum.r 0 ∧
    (alGet (bucketsOut dStatusZero) "A-correct").map
      (fun b => (jsToString b.sum, jsToString b.min, jsToString b.max)) =
      some ("1", "0", "0") := by decide

/-! ### Claim C4: status rows -/

/-- A status row whose value does not coerce to a number leaves `min` and
`max` of a bucket round untouched. -/
theorem updRound_minmax_of_nan (b : Buck) (col : JSVal) (ty : String) (it : Row)
    (skip : Bool) (h : toNum col = JNum.nan) :
    (updRound b col ty it skip).min = b.min ∧ (updRound b col ty it skip).max = b.max := by
  cases skip
  · simp [updRound, h]
  · simp [updRound, h]

def stEmpty : St := ⟨[], [], defaultObj⟩

def statusRow : Row := ⟨"A", "correct", "status", "t", "true"⟩

/-- C4 (amended): a status-typed row whose value does not coerce to a
number never updates any bucket's min or max (a bucket it creates keeps
the sentinels `"Infinity"`/`"-Infinity"`), and such rows only count:
a bucket of three non-numeric status rows ends with serialized sum `"3"`,
min `"Infinity"` and max `"-Infinity"`. -/
theorem c4_status_rows :
    (∀ (tn : Bool) (st : St) (item : Row),
      item.columnType = "status" → toNum (JSVal.s item.column) = JNum.nan →
      ∀ key b', alGet (processItem tn st item).buckets key = some b' →
        (∃ b, alGet st.buckets key = some b ∧ b'.min = b.min ∧ b'.max = b.max) ∨
        (alGet st.buckets key = none ∧ b'.min = JSVal.s "Infinity" ∧
          b'.max = JSVal.s "-Infinity")) ∧
    (alGet (bucketsOut dStatus3) "A-correct").map
      (fun b => (jsToString b.sum, jsToString b.min, jsToString b.max)) =
      some ("3", "Infinity", "-Infinity") := by
  constructor
  · intro tn st item hty hcol key b' hb'
    unfold processItem at hb'
    have hnan : ¬ (item.columnType ≠ "status" ∧ toNum (JSVal.s item.column) = JNum.nan) :=
      fun hc => hc.1 hty
    rw [if_neg hnan] at hb'
    by_cases hal : bucketKey item = totalKeyOf item ∧ (alGet st.buckets (bucketKey item)).isSome
    · rw [if_pos hal] at hb'
      rw [alGet_alSet] at hb'
      by_cases h1 : bucketKey item = key
      · rw [if_pos h1] at hb'
        obtain ⟨b0, hb0⟩ := Option.isSome_iff_exists.mp hal.2
        left
        refine ⟨b0, h1 ▸ hb0, ?_⟩
        have e := Option.some.inj hb'
        subst e
        rw [hb0, Option.getD_some]
        exact ⟨(updRound_minmax_of_nan _ _ _ _ _ hcol).1.trans
            (updRound_minmax_of_nan _ _ _ _ _ hcol).1,
          (updRound_minmax_of_nan _ _ _ _ _ hcol).2.trans
            (updRound_minmax_of_nan _ _ _ _ _ hcol).2⟩
      · rw [if_neg h1] at hb'
        left
        exact ⟨b', hb', rfl, rfl⟩
    · rw [if_neg hal] at hb'
      rw [alGet_alSet, alGet_alSet] at hb'
      by_cases h2 : totalKeyOf item = key
      · rw [if_pos h2] at hb'
        have e := Option.some.inj hb'
        subst e
        have m := updRound_minmax_of_nan
          ((alGet st.buckets (totalKeyOf item)).getD
            { defaultObj with title := some item.columnTitle, items := some [] })
          (JSVal.s item.column) item.columnType item
          (shouldSkipBucket st.nanKeys (totalKeyOf item)) hcol
        cases hb0 : alGet st.buckets (totalKeyOf item) with
        | some b0 =>
          left
          rw [hb0, Option.getD_some] at m
          exact ⟨b0, h2 ▸ hb0, m.1, m.2⟩
        | none =>
          right
          rw [hb0, Option.getD_none] at m
          exact ⟨h2 ▸ hb0, m.1, m.2⟩
      · rw [if_neg h2] at hb'
        by_cases h1 : bucketKey item = key
        · rw [if_pos h1] at hb'
          have e := Option.some.inj hb'
          subst e
          have m := updRound_minmax_of_nan
            ((alGet st.buckets (bucketKey item)).getD
              { defaultObj with title := some item.columnTitle, items := some [] })
            (JSVal.s item.column) item.columnType item
            (shouldSkipBucket st.nanKeys (bucketKey item)) hcol
          cases hb0 : alGet st.buckets (bucketKey item) with
          | some b0 =>
            left
            rw [hb0, Option.getD_some] at m
            exact ⟨b0, h1 ▸ hb0, m.1, m.2⟩
          | none =>
            right
            rw [hb0, Option.getD_none] at m
            exact ⟨h1 ▸ hb0, m.1, m.2⟩
        · rw [if_neg h1] at hb'
          left
          exact ⟨b', hb', rfl, rfl⟩
  · decide

theorem c4_witness :
    (∃ b, alGet stEmpty.buckets "A-correct" = some b ∧
      ((alGet (processItem false stEmpty statusRow).buckets "A-correct").getD
        defaultObj).min = b.min ∧
      ((alGet (processItem false stEmpty statusRow).buckets "A-correct").getD
        defaultObj).max = b.max) ∨
    (alGet stEmpty.buckets "A-correct" = none ∧
      ((alGet (processItem false stEmpty statusRow).buckets "A-correct").getD
        defaultObj).min = JSVal.s "Infinity" ∧
      ((alGet (processItem false stEmpty statusRow).buckets "A-correct").getD
        defaultObj).max = JSVal.s "-Infinity") :=
  (c4_status_rows).1 false stEmpty statusRow rfl (by decide) "A-correct" _ (by decide)

/-! ### Claim C8: the mean -/

/-- Real (non-NaN, non-symbolic) JavaScript numbers. -/
def realJ : JNum → Bool
  | JNum.inf => true
  | JNum.ninf => true
  | JNum.r _ => true
  | _ => false

/-- Infinite JavaScript numbers. -/
def isInfJ : JNum → Bool
  | JNum.inf => true
  | JNum.ninf => true
  | _ => false

theorem parsePos_classify (l : List Char) :
    parsePos l = none ∨ parsePos l = some JNum.inf ∨ ∃ q, parsePos l = some (JNum.r q) := by
  unfold parsePos
  split
  · exact Or.inr (Or.inl rfl)
  · dsimp only
    split
    · exact Or.inr (Or.inr ⟨_, rfl⟩)
    · split
      · exact Or.inr (Or.inr ⟨_, rfl⟩)
      · exact Or.inl rfl
    · exact Or.inl rfl

/-- A string coerces to `NaN` or to a real number, never to `sqrtv`. -/
theorem parseNum_classify (s : String) :
    parseNum s = JNum.nan ∨ realJ (parseNum s) = true := by
  unfold parseNum
  split
  · exact Or.inr rfl
  · rcases parsePos_classify _ with h | h | ⟨q, h⟩ <;> rw [h] <;> simp [realJ]
  · rcases parsePos_classify _ with h | h | ⟨q, h⟩ <;> rw [h] <;> simp [realJ]
  · rcases parsePos_classify _ with h | h | ⟨q, h⟩ <;> rw [h] <;> simp [realJ]

/-- The spec's description of the mean of a bucket, from its own min, max,
sum and item count. -/
def specMean (b : Buck) : JSVal :=
  let m := toNum b.min
  let M := toNum b.max
  if m = JNum.ninf ∧ M = JNum.inf then JSVal.s "NaN"
  else if isInfJ m = true ∧ isInfJ M = false then
    (if m = JNum.inf then JSVal.s "Infinity" else JSVal.s "-Infinity")
  else if isInfJ M = true ∧ isInfJ m = false then
    (if M = JNum.inf then JSVal.s "Infinity" else JSVal.s "-Infinity")
  else JSVal.n (jdiv (toNum b.sum) (JNum.r (mkRat (b.items.getD []).length 1)))

/-- The reachability invariant of a live bucket: the sum is a number, the
bounds are real, and the only ways both bounds can be infinite force the
sum (the sentinel state `min = Infinity, max = -Infinity` keeps a
natural-number sum). -/
def minmaxInv (b : Buck) : Prop :=
  (∃ x, b.sum = JSVal.n x) ∧
  realJ (toNum b.min) = true ∧ realJ (toNum b.max) = true ∧
  (toNum b.min = JNum.inf → toNum b.max = JNum.inf ∨ toNum b.max = JNum.ninf) ∧
  (toNum b.max = JNum.ninf → toNum b.min = JNum.ninf ∨ toNum b.min = JNum.inf) ∧
  (toNum b.min = JNum.inf → toNum b.max = JNum.inf → toNum b.sum = JNum.inf) ∧
  (toNum b.min = JNum.ninf → toNum b.max = JNum.ninf → toNum b.sum = JNum.ninf) ∧
  (toNum b.min = JNum.inf → toNum b.max = JNum.ninf →
    ∃ k : ℕ, b.sum = JSVal.n (JNum.r (mkRat k 1)))

/-- Any bucket in the untouched sentinel state satisfies the invariant. -/
theorem minmaxInv_sentinel (b : Buck) (hs : b.sum = JSVal.n (JNum.r 0))
    (hmin : b.min = JSVal.s "Infinity") (hmax : b.max = JSVal.s "-Infinity") :
    minmaxInv b := by
  unfold minmaxInv
  rw [hs, hmin, hmax]
  exact ⟨⟨JNum.r 0, rfl⟩, by decide, by decide, by decide, by decide, by decide,
    by decide, fun _ _ => ⟨0, by decide⟩⟩

theorem minmaxInv_template (t : String) :
    minmaxInv { defaultObj with title := some t, items := some [] } :=
  minmaxInv_sentinel _ rfl rfl rfl

theorem jdiv_inf_natCast (n : ℕ) : jdiv JNum.inf (JNum.r (n : ℚ)) = JNum.inf := by
  show (if (n : ℚ) < 0 then JNum.ninf else JNum.inf) = JNum.inf
  rw [if_neg (not_lt.mpr (by positivity))]

theorem jdiv_ninf_natCast (n : ℕ) : jdiv JNum.ninf (JNum.r (n : ℚ)) = JNum.ninf := by
  show (if (n : ℚ) < 0 then JNum.inf else JNum.ninf) = JNum.ninf
  rw [if_neg (not_lt.mpr (by positivity))]

/-- Adding a value that coerces to `+Infinity` to an infinite-or-rational
number sum gives `+Infinity`. -/
theorem maybeAdd_inf (a col : JSVal) (ty : String)
    (hcol : toNum col = JNum.inf)
    (ha : toNum a = JNum.inf ∨ ∃ q, toNum a = JNum.r q) :
    toNum (maybeAdd a col ty) = JNum.inf := by
  unfold maybeAdd
  rw [hcol]
  rw [if_pos (show jTruthy JNum.inf = true from rfl)]
  unfold safeAdd
  rw [hcol]
  rcases ha with ha | ⟨q, ha⟩ <;> rw [ha]
  · rw [if_neg (by decide)]
    rfl
  · by_cases hq : (jIsInteger (JNum.r q) || jIsInteger JNum.inf) = true
    · rw [if_pos hq]
      rfl
    · rw [if_neg hq]
      rfl

/-- Adding a value that coerces to `-Infinity` to a negative-infinite or
rational sum gives `-Infinity`. -/
theorem maybeAdd_ninf (a col : JSVal) (ty : String)
    (hcol : toNum col = JNum.ninf)
    (ha : toNum a = JNum.ninf ∨ ∃ q, toNum a = JNum.r q) :
    toNum (maybeAdd a col ty) = JNum.ninf := by
  unfold maybeAdd
  rw [hcol]
  rw [if_pos (show jTruthy JNum.ninf = true from rfl)]
  unfold safeAdd
  rw [hcol]
  rcases ha with ha | ⟨q, ha⟩ <;> rw [ha]
  · rw [if_neg (by decide)]
    rfl
  · by_cases hq : (jIsInteger (JNum.r q) || jIsInteger JNum.ninf) = true
    · rw [if_pos hq]
      rfl
    · rw [if_neg hq]
      rfl

/-- The sum stays a plain number through `maybeAdd`. -/
theorem maybeAdd_shape (a col : JSVal) (ty : String) (ha : ∃ x, a = JSVal.n x) :
    ∃ x, maybeAdd a col ty = JSVal.n x := by
  obtain ⟨x, hx⟩ := ha
  subst hx
  unfold maybeAdd
  split
  · unfold safeAdd
    dsimp only
    split
    · exact ⟨_, rfl⟩
    · exact ⟨_, rfl⟩
  · split
    · exact ⟨_, rfl⟩
    · exact ⟨_, rfl⟩

theorem qadd_natCast (k : ℕ) : qadd (mkRat k 1) 1 = mkRat (k + 1 : ℕ) 1 := by
  rw [qadd_eq, Rat.mkRat_one, Rat.mkRat_one]
  push_cast
  ring

theorem updRound_false_nan (b : Buck) (col : JSVal) (ty : String) (it : Row)
    (h : toNum col = JNum.nan) :
    updRound b col ty it false =
      { b with
        sum := maybeAdd b.sum col ty,
        items := some (b.items.getD [] ++ [it]) } := by
  simp [updRound, h]

theorem updRound_false_real (b : Buck) (col : JSVal) (ty : String) (it : Row)
    (h : ¬ (toNum col = JNum.nan)) :
    updRound b col ty it false =
      { b with
        sum := maybeAdd b.sum col ty,
        max := mathStringMax b.max col, min := mathStringMin b.min col,
        items := some (b.items.getD [] ++ [it]) } := by
  simp [updRound, h]

theorem toNum_mathStringMin (a b : JSVal) :
    toNum (mathStringMin a b) =
      if jlt (toNum a) (toNum b) = true then toNum a else toNum b := by
  unfold mathStringMin
  split
  next h => rfl
  next h => rfl

theorem toNum_mathStringMax (a b : JSVal) :
    toNum (mathStringMax a b) =
      if jgt (toNum a) (toNum b) = true then toNum a else toNum b := by
  unfold mathStringMax
  split
  next h => rfl
  next h => rfl

theorem jgt_to_inf (M : JNum) : jgt M JNum.inf = false := by
  cases M <;> rfl

theorem jlt_to_ninf (m : JNum) : jlt m JNum.ninf = false := by
  cases m <;> rfl

/-- One guarded pass-1 round preserves the bucket invariant. -/
theorem minmaxInv_updRound (b : Buck) (item : Row) (skip : Bool)
    (hb : minmaxInv b)
    (hok : item.columnType = "status" ∨ ¬ (toNum (JSVal.s item.column) = JNum.nan)) :
    minmaxInv (updRound b (JSVal.s item.column) item.columnType item skip) := by
  obtain ⟨hshape, hEm, hEM, hC, hD, hB, hA, hF⟩ := hb
  cases skip
  case true =>
    rw [updRound_skip]
    exact ⟨hshape, hEm, hEM, hC, hD, hB, hA, hF⟩
  case false =>
  cases htv : toNum (JSVal.s item.column) with
  | sqrtv q =>
    rcases parseNum_classify item.column with hcl | hcl
    · rw [show toNum (JSVal.s item.column) = parseNum item.column from rfl, hcl] at htv
      exact JNum.noConfusion htv
    · rw [show toNum (JSVal.s item.column) = parseNum item.column from rfl] at htv
      rw [htv] at hcl
      exact Bool.noConfusion hcl
  | nan =>
    rw [updRound_false_nan _ _ _ _ htv]
    refine ⟨maybeAdd_shape _ _ _ hshape, hEm, hEM, hC, hD, ?_, ?_, ?_⟩
    · intro h1 h2
      have hsum := hB h1 h2
      obtain ⟨x, hx⟩ := hshape
      have hty : item.columnType = "status" := by
        rcases hok with h | h
        · exact h
        · exact absurd htv h
      show toNum (maybeAdd b.sum (JSVal.s item.column) item.columnType) = JNum.inf
      unfold maybeAdd
      rw [htv, if_neg (by decide), if_pos hty, hx]
      rw [hx] at hsum
      have hx' : x = JNum.inf := hsum
      rw [hx']
      rfl
    · intro h1 h2
      have hsum := hA h1 h2
      obtain ⟨x, hx⟩ := hshape
      have hty : item.columnType = "status" := by
        rcases hok with h | h
        · exact h
        · exact absurd htv h
      show toNum (maybeAdd b.sum (JSVal.s item.column) item.columnType) = JNum.ninf
      unfold maybeAdd
      rw [htv, if_neg (by decide), if_pos hty, hx]
      rw [hx] at hsum
      have hx' : x = JNum.ninf := hsum
      rw [hx']
      rfl
    · intro h1 h2
      obtain ⟨k, hk⟩ := hF h1 h2
      have hty : item.columnType = "status" := by
        rcases hok with h | h
        · exact h
        · exact absurd htv h
      refine ⟨k + 1, ?_⟩
      show maybeAdd b.sum (JSVal.s item.column) item.columnType =
        JSVal.n (JNum.r (mkRat (k + 1 : ℕ) 1))
      unfold maybeAdd
      rw [htv, if_neg (by decide), if_pos hty, hk]
      show JSVal.n (jadd (JNum.r (mkRat k 1)) (JNum.r 1)) = _
      rw [show jadd (JNum.r (mkRat k 1)) (JNum.r 1) = JNum.r (qadd (mkRat k 1) 1) from rfl,
        qadd_natCast]
  | inf =>
    rw [updRound_false_real _ _ _ _ (by rw [htv]; exact fun h => JNum.noConfusion h)]
    have hmax' : toNum (mathStringMax b.max (JSVal.s item.column)) = JNum.inf := by
      rw [toNum_mathStringMax, htv, jgt_to_inf, if_neg (by decide)]
    have hmin' : toNum (mathStringMin b.min (JSVal.s item.column)) = JNum.inf →
        toNum b.min = JNum.inf := by
      intro h
      rw [toNum_mathStringMin, htv] at h
      by_cases hlt : jlt (toNum b.min) JNum.inf = true
      · rw [if_pos hlt] at h
        exact h
      · rw [if_neg hlt] at h
        cases hm : toNum b.min with
        | inf => rfl
        | ninf => rw [hm] at hlt; exact absurd rfl hlt
        | r q => rw [hm] at hlt; exact absurd rfl hlt
        | nan => rw [hm] at hEm; exact Bool.noConfusion hEm
        | sqrtv q => rw [hm] at hEm; exact Bool.noConfusion hEm
    refine ⟨maybeAdd_shape _ _ _ hshape, ?_, ?_, ?_, ?_, ?_, ?_, ?_⟩
    · show realJ (toNum (mathStringMin b.min (JSVal.s item.column))) = true
      rw [toNum_mathStringMin, htv]
      split
      · exact hEm
      · rfl
    · show realJ (toNum (mathStringMax b.max (JSVal.s item.column))) = true
      rw [hmax']
      rfl
    · intro _
      exact Or.inl hmax'
    · intro h
      rw [hmax'] at h
      exact JNum.noConfusion h
    · intro h1 _
      have hm := hmin' h1
      rcases hC hm with hM | hM
      · have hsum := hB hm hM
        obtain ⟨x, hx⟩ := hshape
        exact maybeAdd_inf _ _ _ htv (Or.inl hsum)
      · obtain ⟨k, hk⟩ := hF hm hM
        exact maybeAdd_inf _ _ _ htv (Or.inr ⟨mkRat k 1, by rw [hk]; rfl⟩)
    · intro _ h2
      rw [hmax'] at h2
      exact JNum.noConfusion h2
    · intro _ h2
      rw [hmax'] at h2
      exact JNum.noConfusion h2
  | ninf =>
    rw [updRound_false_real _ _ _ _ (by rw [htv]; exact fun h => JNum.noConfusion h)]
    have hmin' : toNum (mathStringMin b.min (JSVal.s item.column)) = JNum.ninf := by
      rw [toNum_mathStringMin, htv, jlt_to_ninf, if_neg (by decide)]
    have hmax' : toNum (mathStringMax b.max (JSVal.s item.column)) = JNum.ninf →
        toNum b.max = JNum.ninf := by
      intro h
      rw [toNum_mathStringMax, htv] at h
      by_cases hgt : jgt (toNum b.max) JNum.ninf = true
      · rw [if_pos hgt] at h
        exact h
      · rw [if_neg hgt] at h
        cases hM : toNum b.max with
        | ninf => rfl
        | inf =>
          rw [hM] at hgt
          exact absurd rfl hgt
        | r q =>
          rw [hM] at hgt
          exact absurd rfl hgt
        | nan => rw [hM] at hEM; exact Bool.noConfusion hEM
        | sqrtv q => rw [hM] at hEM; exact Bool.noConfusion hEM
    refine ⟨maybeAdd_shape _ _ _ hshape, ?_, ?_, ?_, ?_, ?_, ?_, ?_⟩
    · show realJ (toNum (mathStringMin b.min (JSVal.s item.column))) = true
      rw [hmin']
      rfl
    · show realJ (toNum (mathStringMax b.max (JSVal.s item.column))) = true
      rw [toNum_mathStringMax, htv]
      split
      · exact hEM
      · rfl
    · intro h
      rw [hmin'] at h
      exact JNum.noConfusion h
    · intro _
      exact Or.inl hmin'
    · intro h1 _
      rw [hmin'] at h1
      exact JNum.noConfusion h1
    · intro _ h2
      have hM := hmax' h2
      rcases hD hM with hm | hm
      · have hsum := hA hm hM
        exact maybeAdd_ninf _ _ _ htv (Or.inl hsum)
      · obtain ⟨k, hk⟩ := hF hm hM
        exact maybeAdd_ninf _ _ _ htv (Or.inr ⟨mkRat k 1, by rw [hk]; rfl⟩)
    · intro h1 _
      rw [hmin'] at h1
      exact JNum.noConfusion h1
  | r q =>
    rw [updRound_false_real _ _ _ _ (by rw [htv]; exact fun h => JNum.noConfusion h)]
    have hmin' : toNum (mathStringMin b.min (JSVal.s item.column)) = toNum b.min ∨
        toNum (mathStringMin b.min (JSVal.s item.column)) = JNum.r q := by
      rw [toNum_mathStringMin, htv]
      split
      · exact Or.inl rfl
      · exact Or.inr rfl
    have hmax' : toNum (mathStringMax b.max (JSVal.s item.column)) = toNum b.max ∨
        toNum (mathStringMax b.max (JSVal.s item.column)) = JNum.r q := by
      rw [toNum_mathStringMax, htv]
      split
      · exact Or.inl rfl
      · exact Or.inr rfl
    have hmin_ne : ¬ (toNum (mathStringMin b.min (JSVal.s item.column)) = JNum.inf) := by
      intro h
      rw [toNum_mathStringMin, htv] at h
      by_cases hlt : jlt (toNum b.min) (JNum.r q) = true
      · rw [if_pos hlt] at h
        rw [h] at hlt
        exact Bool.noConfusion hlt
      · rw [if_neg hlt] at h
        exact JNum.noConfusion h
    have hmax_ne : ¬ (toNum (mathStringMax b.max (JSVal.s item.column)) = JNum.ninf) := by
      intro h
      rw [toNum_mathStringMax, htv] at h
      by_cases hgt : jgt (toNum b.max) (JNum.r q) = true
      · rw [if_pos hgt] at h
        rw [h] at hgt
        exact Bool.noConfusion hgt
      · rw [if_neg hgt] at h
        exact JNum.noConfusion h
    refine ⟨maybeAdd_shape _ _ _ hshape, ?_, ?_, ?_, ?_, ?_, ?_, ?_⟩
    · rcases hmin' with h | h <;> rw [h]
      · exact hEm
      · rfl
    · rcases hmax' with h | h <;> rw [h]
      · exact hEM
      · rfl
    · intro h
      exact absurd h hmin_ne
    · intro h
      exact absurd h hmax_ne
    · intro h1 _
      exact absurd h1 hmin_ne
    · intro _ h2
      exact absurd h2 hmax_ne
    · intro h1 _
      exact absurd h1 hmin_ne

/-- The invariant holds for every live (non-poisoned) bucket. -/
def minmaxInvAll (st : St) : Prop :=
  ∀ k b, alGet st.buckets k = some b → keyMem st.nanKeys k = false → minmaxInv b

theorem minmaxInvAll_processItem (tn : Bool) (st : St) (item : Row)
    (h : minmaxInvAll st) : minmaxInvAll (processItem tn st item) := by
  intro k b hb hk
  unfold processItem at hb hk
  by_cases hnan : item.columnType ≠ "status" ∧ toNum (JSVal.s item.column) = JNum.nan
  · simp only [if_pos hnan] at hb hk
    simp only [keyMem_addKey, Bool.or_eq_false_iff, decide_eq_false_iff_not] at hk
    obtain ⟨⟨hk0, hk1⟩, hk2⟩ := hk
    rw [alGet_alSet, alGet_alSet, if_neg hk2, if_neg hk1] at hb
    exact h k b hb hk0
  · simp only [if_neg hnan] at hb hk
    have hok : item.columnType = "status" ∨ ¬ (toNum (JSVal.s item.column) = JNum.nan) := by
      by_cases hty : item.columnType = "status"
      · exact Or.inl hty
      · exact Or.inr (fun hc => hnan ⟨hty, hc⟩)
    by_cases hal : bucketKey item = totalKeyOf item ∧ (alGet st.buckets (bucketKey item)).isSome
    · simp only [if_pos hal] at hb hk
      rw [alGet_alSet] at hb
      by_cases h1 : bucketKey item = k
      · rw [if_pos h1] at hb
        have e := Option.some.inj hb
        obtain ⟨b0, hb0⟩ := Option.isSome_iff_exists.mp hal.2
        have hinv0 : minmaxInv b0 := h (bucketKey item) b0 hb0 (h1 ▸ hk)
        rw [← e, hb0, Option.getD_some]
        exact minmaxInv_updRound _ item _ (minmaxInv_updRound _ item _ hinv0 hok) hok
      · rw [if_neg h1] at hb
        exact h k b hb hk
    · simp only [if_neg hal] at hb hk
      rw [alGet_alSet, alGet_alSet] at hb
      by_cases h2 : totalKeyOf item = k
      · rw [if_pos h2] at hb
        have e := Option.some.inj hb
        rw [← e]
        cases hb0 : alGet st.buckets (totalKeyOf item) with
        | some b0 =>
          rw [Option.getD_some]
          exact minmaxInv_updRound _ item _ (h _ b0 hb0 (h2 ▸ hk)) hok
        | none =>
          rw [Option.getD_none]
          exact minmaxInv_updRound _ item _ (minmaxInv_template _) hok
      · rw [if_neg h2] at hb
        by_cases h1 : bucketKey item = k
        · rw [if_pos h1] at hb
          have e := Option.some.inj hb
          rw [← e]
          cases hb0 : alGet st.buckets (bucketKey item) with
          | some b0 =>
            rw [Option.getD_some]
            exact minmaxInv_updRound _ item _ (h _ b0 hb0 (h1 ▸ hk)) hok
          | none =>
            rw [Option.getD_none]
            exact minmaxInv_updRound _ item _ (minmaxInv_template _) hok
        · rw [if_neg h1] at hb
          exact h k b hb hk

theorem minmaxInvAll_pass1 (data : List (Option RawRow)) :
    minmaxInvAll (pass1St data) := by
  unfold pass1St
  refine foldl_preserves minmaxInvAll _
    (fun st a hst => minmaxInvAll_processItem _ st a hst) _ _ ?_
  intro k b hb _
  exact absurd hb (by simp [alGet])

theorem calculateMedian_avg (v : Buck) (items : List Row) :
    (calculateMedian v items).avg = v.avg := by
  unfold calculateMedian
  split
  · rfl
  · split
    · rfl
    · rfl

theorem calculateMean_items (v : Buck) (items : List Row) :
    (calculateMean v items).items = v.items := by
  unfold calculateMean
  dsimp only
  split
  · rfl
  · split
    · rfl
    · split
      · rfl
      · rfl

/-- Core of C8: on any bucket satisfying the reachability invariant, the
code's mean serializes exactly as the spec's description. -/
theorem calculateMean_avg_spec (b : Buck) (hb : minmaxInv b) :
    jsToString ((calculateMean b (b.items.getD [])).avg) = jsToString (specMean b) := by
  obtain ⟨⟨x, hx⟩, hEm, hEM, hC, hD, hB, hA, hF⟩ := hb
  cases hm : toNum b.min with
  | nan => rw [hm] at hEm; exact Bool.noConfusion hEm
  | sqrtv q => rw [hm] at hEm; exact Bool.noConfusion hEm
  | inf =>
    cases hM : toNum b.max with
    | nan => rw [hM] at hEM; exact Bool.noConfusion hEM
    | sqrtv q => rw [hM] at hEM; exact Bool.noConfusion hEM
    | inf =>
      have hsum := hB hm hM
      rw [hx] at hsum
      have hx' : x = JNum.inf := hsum
      subst hx'
      simp [calculateMean, specMean, hm, hM, hx, isInfJ, hsum, jdiv_inf_natCast,
        jsToString, jnumToString]
    | ninf =>
      simp [calculateMean, specMean, hm, hM, isInfJ]
    | r qM =>
      rcases hC hm with hcon | hcon <;> rw [hM] at hcon <;> exact JNum.noConfusion hcon
  | ninf =>
    cases hM : toNum b.max with
    | nan => rw [hM] at hEM; exact Bool.noConfusion hEM
    | sqrtv q => rw [hM] at hEM; exact Bool.noConfusion hEM
    | inf =>
      simp [calculateMean, specMean, hm, hM, isInfJ]
    | ninf =>
      have hsum := hA hm hM
      rw [hx] at hsum
      have hx' : x = JNum.ninf := hsum
      subst hx'
      simp [calculateMean, specMean, hm, hM, hx, isInfJ, hsum, jdiv_ninf_natCast,
        jsToString, jnumToString]
    | r qM =>
      simp [calculateMean, specMean, hm, hM, isInfJ, jsToString]
  | r qm =>
    cases hM : toNum b.max with
    | nan => rw [hM] at hEM; exact Bool.noConfusion hEM
    | sqrtv q => rw [hM] at hEM; exact Bool.noConfusion hEM
    | inf =>
      simp [calculateMean, specMean, hm, hM, isInfJ, jsToString]
    | ninf =>
      rcases hD hM with hcon | hcon <;> rw [hm] at hcon <;> exact JNum.noConfusion hcon
    | r qM =>
      simp [calculateMean, specMean, hm, hM, isInfJ]

/-- C8: for every request and every non-poisoned bucket, the bucket's mean
(as serialized) is NaN when min is `-Infinity` and max is `Infinity`,
equals the infinite bound when exactly one of the bucket's own bounds is
infinite, and equals sum divided by item count otherwise. -/
theorem c8_mean (data : List (Option RawRow)) (key : String) (b b' : Buck)
    (hb : alGet (pass1St data).buckets key = some b)
    (hb' : alGet (bucketsMM data) key = some b')
    (hnp : keyMem (pass1St data).nanKeys key = false) :
    jsToString b'.avg = jsToString (specMean b) := by
  have hinv := minmaxInvAll_pass1 data key b hb hnp
  unfold bucketsMM at hb'
  rw [alGet_map_keyfix _ (fst_meanMedianBuck _), hb] at hb'
  simp only [Option.map_some', Option.some.injEq] at hb'
  subst hb'
  have hns : ¬ (shouldSkipBucket (pass1St data).nanKeys key = true) := by
    intro hcon
    have hcon' : keyMem (pass1St data).nanKeys key = true := hcon
    rw [hnp] at hcon'
    exact Bool.noConfusion hcon'
  unfold meanMedianBuck
  dsimp only
  rw [if_neg hns]
  dsimp only
  rw [calculateMedian_avg]
  exact calculateMean_avg_spec b hinv

theorem c8_witness :
    jsToString (((alGet (bucketsMM dE2E) "A-correct").getD defaultObj).avg) =
      jsToString (specMean ((alGet (pass1St dE2E).buckets "A-correct").getD defaultObj)) :=
  c8_mean dE2E "A-correct"
    ((alGet (pass1St dE2E).buckets "A-correct").getD defaultObj)
    ((alGet (bucketsMM dE2E) "A-correct").getD defaultObj)
    (by decide) (by decide) (by decide)

/-! ### Claim C9: exact integer sums -/

/-- Numeric coercion of a row's value. -/
def rowNum (r : Row) : JNum := toNum (JSVal.s r.column)

/-- Integer value contributed by a row to the exact sum. -/
def rowInt (r : Row) : ℤ :=
  match rowNum r with
  | JNum.r q => q.num
  | _ => 0

/-- The exact mathematical sum of the rows' integer values. -/
def specIntSum : List Row → ℤ
  | [] => 0
  | r :: rest => rowInt r + specIntSum rest

/-- A row carrying an integer value, excluding zero-valued status rows
(whose `maybeAdd` takes the count branch). -/
def okIntRow (r : Row) : Bool :=
  match rowNum r with
  | JNum.r q => decide (q.den = 1) && !(decide (r.columnType = "status") && decide (q = 0))
  | _ => false

theorem specIntSum_append (l : List Row) (r : Row) :
    specIntSum (l ++ [r]) = specIntSum l + rowInt r := by
  induction l with
  | nil => simp [specIntSum]
  | cons x xs ih =>
    simp only [List.cons_append, List.append_eq, specIntSum, ih]
    ring

theorem mkRat_one_den (z : ℤ) : (mkRat z 1).den = 1 := by
  rw [Rat.mkRat_one]
  exact Rat.den_intCast z

theorem qadd_mkRat_int (S : ℤ) (q : ℚ) (hq : q.den = 1) :
    qadd (mkRat S 1) q = mkRat (S + q.num) 1 := by
  have h := (Rat.den_eq_one_iff q).mp hq
  rw [qadd_eq, Rat.mkRat_one, Rat.mkRat_one]
  conv_lhs => rw [← h]
  push_cast
  ring

/-- The conditional exact-sum invariant of one bucket. -/
def intSumInv (b : Buck) : Prop :=
  (∀ r ∈ b.items.getD [], okIntRow r = true) →
    b.sum = JSVal.n (JNum.r (mkRat (specIntSum (b.items.getD [])) 1))

theorem intSumInv_template (t : String) :
    intSumInv { defaultObj with title := some t, items := some [] } := by
  intro _
  show JSVal.n (JNum.r 0) = JSVal.n (JNum.r (mkRat (specIntSum ([] : List Row)) 1))
  decide

theorem intSumInv_updRound (b : Buck) (item : Row) (skip : Bool)
    (hb : intSumInv b) :
    intSumInv (updRound b (JSVal.s item.column) item.columnType item skip) := by
  cases skip
  case true =>
    rw [updRound_skip]
    exact hb
  case false =>
  by_cases hcol : toNum (JSVal.s item.column) = JNum.nan
  · rw [updRound_false_nan _ _ _ _ hcol]
    intro hall
    have hitem := hall item (by
      show item ∈ ({ b with
        sum := maybeAdd b.sum (JSVal.s item.column) item.columnType,
        items := some (b.items.getD [] ++ [item]) } : Buck).items.getD []
      show item ∈ b.items.getD [] ++ [item]
      exact List.mem_append_right _ (List.mem_singleton_self item))
    unfold okIntRow at hitem
    rw [show rowNum item = JNum.nan from hcol] at hitem
    exact Bool.noConfusion hitem
  · rw [updRound_false_real _ _ _ _ hcol]
    intro hall
    have hns : ∀ r ∈ b.items.getD [] ++ [item], okIntRow r = true := hall
    have hitem := hns item (List.mem_append_right _ (List.mem_singleton_self item))
    have hprev : ∀ r ∈ b.items.getD [], okIntRow r = true :=
      fun r hr => hns r (List.mem_append_left _ hr)
    have hsum := hb hprev
    show maybeAdd b.sum (JSVal.s item.column) item.columnType =
      JSVal.n (JNum.r (mkRat (specIntSum (b.items.getD [] ++ [item])) 1))
    rw [specIntSum_append, hsum]
    unfold okIntRow at hitem
    cases hq : rowNum item with
    | nan => rw [hq] at hitem; exact Bool.noConfusion hitem
    | inf => rw [hq] at hitem; exact Bool.noConfusion hitem
    | ninf => rw [hq] at hitem; exact Bool.noConfusion hitem
    | sqrtv q => rw [hq] at hitem; exact Bool.noConfusion hitem
    | r q =>
      rw [hq] at hitem
      simp only [Bool.and_eq_true, Bool.not_eq_true', Bool.and_eq_false_iff,
        decide_eq_true_eq, decide_eq_false_iff_not] at hitem
      obtain ⟨hden, hnz⟩ := hitem
      have hri : rowInt item = q.num := by
        unfold rowInt
        rw [hq]
      rw [hri]
      unfold maybeAdd
      rw [show toNum (JSVal.s item.column) = JNum.r q from hq]
      by_cases hq0 : q = 0
      · subst hq0
        rw [if_neg (by decide)]
        rcases hnz with hty | hzz
        · rw [if_neg hty]
          rw [show (0 : ℚ).num = 0 from rfl]
          rw [show specIntSum (b.items.getD []) + 0 = specIntSum (b.items.getD []) from by ring]
        · exact absurd rfl hzz
      · rw [if_pos (by
          show jTruthy (JNum.r q) = true
          unfold jTruthy
          exact decide_eq_true hq0)]
        unfold safeAdd
        rw [show toNum (JSVal.n (JNum.r (mkRat (specIntSum (b.items.getD [])) 1))) =
          JNum.r (mkRat (specIntSum (b.items.getD [])) 1) from rfl]
        rw [show toNum (JSVal.s item.column) = JNum.r q from hq]
        rw [if_pos (by
          show (jIsInteger (JNum.r (mkRat (specIntSum (b.items.getD [])) 1)) ||
            jIsInteger (JNum.r q)) = true
          simp [jIsInteger, mkRat_one_den])]
        show JSVal.n (JNum.r (qadd (mkRat (specIntSum (b.items.getD [])) 1) q)) = _
        rw [qadd_mkRat_int _ _ hden]

/-- Generic preservation through `processItem` of a per-bucket property
that survives update rounds and holds for fresh buckets. -/
theorem invAll_processItem (P : Buck → Prop)
    (hstep : ∀ (b : Buck) (item : Row) (skip : Bool), P b →
      P (updRound b (JSVal.s item.column) item.columnType item skip))
    (htemp : ∀ t, P { defaultObj with title := some t, items := some [] })
    (tn : Bool) (st : St) (item : Row)
    (h : ∀ k b, alGet st.buckets k = some b → keyMem st.nanKeys k = false → P b) :
    ∀ k b, alGet (processItem tn st item).buckets k = some b →
      keyMem (processItem tn st item).nanKeys k = false → P b := by
  intro k b hb hk
  unfold processItem at hb hk
  by_cases hnan : item.columnType ≠ "status" ∧ toNum (JSVal.s item.column) = JNum.nan
  · simp only [if_pos hnan] at hb hk
    simp only [keyMem_addKey, Bool.or_eq_false_iff, decide_eq_false_iff_not] at hk
    obtain ⟨⟨hk0, hk1⟩, hk2⟩ := hk
    rw [alGet_alSet, alGet_alSet, if_neg hk2, if_neg hk1] at hb
    exact h k b hb hk0
  · simp only [if_neg hnan] at hb hk
    by_cases hal : bucketKey item = totalKeyOf item ∧ (alGet st.buckets (bucketKey item)).isSome
    · simp only [if_pos hal] at hb hk
      rw [alGet_alSet] at hb
      by_cases h1 : bucketKey item = k
      · rw [if_pos h1] at hb
        have e := Option.some.inj hb
        obtain ⟨b0, hb0⟩ := Option.isSome_iff_exists.mp hal.2
        have hinv0 : P b0 := h (bucketKey item) b0 hb0 (h1 ▸ hk)
        rw [← e, hb0, Option.getD_some]
        exact hstep _ item _ (hstep _ item _ hinv0)
      · rw [if_neg h1] at hb
        exact h k b hb hk
    · simp only [if_neg hal] at hb hk
      rw [alGet_alSet, alGet_alSet] at hb
      by_cases h2 : totalKeyOf item = k
      · rw [if_pos h2] at hb
        have e := Option.some.inj hb
        rw [← e]
        cases hb0 : alGet st.buckets (totalKeyOf item) with
        | some b0 =>
          rw [Option.getD_some]
          exact hstep _ item _ (h _ b0 hb0 (h2 ▸ hk))
        | none =>
          rw [Option.getD_none]
          exact hstep _ item _ (htemp _)
      · rw [if_neg h2] at hb
        by_cases h1 : bucketKey item = k
        · rw [if_pos h1] at hb
          have e := Option.some.inj hb
          rw [← e]
          cases hb0 : alGet st.buckets (bucketKey item) with
          | some b0 =>
            rw [Option.getD_some]
            exact hstep _ item _ (h _ b0 hb0 (h1 ▸ hk))
          | none =>
            rw [Option.getD_none]
            exact hstep _ item _ (htemp _)
        · rw [if_neg h1] at hb
          exact h k b hb hk

/-- C9 (amended): for every request and every non-poisoned bucket all of
whose rows carry integer values and none of which is a zero-valued status
row, the bucket's computed sum is exactly the mathematical sum of those
integers. -/
theorem c9_int_sum (data : List (Option RawRow)) (key : String) (b : Buck)
    (hb : alGet (pass1St data).buckets key = some b)
    (hnp : keyMem (pass1St data).nanKeys key = false)
    (hall : ∀ r ∈ b.items.getD [], okIntRow r = true) :
    b.sum = JSVal.n (JNum.r (mkRat (specIntSum (b.items.getD [])) 1)) := by
  have hfold : ∀ k b', alGet (pass1St data).buckets k = some b' →
      keyMem (pass1St data).nanKeys k = false → intSumInv b' := by
    unfold pass1St
    refine foldl_preserves
      (fun st => ∀ k b', alGet st.buckets k = some b' →
        keyMem st.nanKeys k = false → intSumInv b')
      _ (fun st a hst => invAll_processItem intSumInv
        (fun b2 it sk hb2 => intSumInv_updRound b2 it sk hb2)
        intSumInv_template _ st a hst) _ _ ?_
    intro k b' hb' _
    exact absurd hb' (by simp [alGet])
  exact hfold key b hb hnp hall

theorem c9_witness :
    ((alGet (pass1St dE2E).buckets "A-correct").getD defaultObj).sum =
      JSVal.n (JNum.r (mkRat (specIntSum
        (((alGet (pass1St dE2E).buckets "A-correct").getD defaultObj).items.getD [])) 1)) :=
  c9_int_sum dE2E "A-correct"
    ((alGet (pass1St dE2E).buckets "A-correct").getD defaultObj)
    (by decide) (by decide) (by decide)

end StatsWorker
